import Mathlib

/-!
# pod-resizer: a shallow embedding of the metrics-driven resource rewriting

The development follows the three Go source files of the repository.

* `helper.go`  : `GetMainControllerName`, `RoundUPAndStringify`,
  `SplitKeysWithContainerName`.
* `metrics.go` : `ResourceAllocables`, `QueryBuilder`, `AssignCPUAllocations`,
  `AssignMemoryAllocations`, `Propagate`.
* `webhook.go` : `podWebhook.Handle`.

Modelling conventions.

* Go `string` is `String`; the `strings` functions used by the code are written
  over the characters of the string. All separators used by the code are ASCII.
* A finite Go `float64` is the rational `ℚ` it stands for. The quotient `num / 100.0` is
  rounded to the nearest binary64, ties to even, as IEEE 754 has it; `NaN` and the
  infinities are not modelled. `int` is the 64-bit signed integer: products wrap
  modulo `2 ^ 64`.
* Go maps are association lists; `nil` maps are `none`.
* A run-time panic (index out of range) is the outcome `none` of an `Option`.
* Logging is not modelled.
-/

namespace PodResizer

/-! ## Library functions used by `helper.go` -/

/-- Function `strings.Split(s, sep)` for a one-character separator, over characters. -/
def splitChars (sep : Char) : List Char → List (List Char)
  | [] => [[]]
  | c :: cs =>
    if c = sep then [] :: splitChars sep cs
    else
      match splitChars sep cs with
      | [] => [[c]]
      | piece :: rest => (c :: piece) :: rest

/-- Function `strings.Join(pieces, sep)` for a one-character separator, over characters. -/
def joinChars (sep : Char) : List (List Char) → List Char
  | [] => []
  | [piece] => piece
  | piece :: rest => piece ++ sep :: joinChars sep rest

/-- Function `strings.Contains(s, sub)`, over characters. -/
def containsChars (sub : List Char) : List Char → Bool
  | [] => sub.isEmpty
  | c :: cs => sub.isPrefixOf (c :: cs) || containsChars sub cs

/-- Function `strings.Trim(s, cutset)` for the one-character cutset `c`. -/
def trimChar (c : Char) (s : List Char) : List Char :=
  ((s.dropWhile (fun x => x == c)).reverse.dropWhile (fun x => x == c)).reverse

/-- The digit scan `parsenum` of Go's `fmt`: reads decimal digits, gives whether a number was
read and the text after it; a number above `1e6` makes the scan give up and jump to the end
of the text it was scanning. -/
def parsenum : List Char → Nat → Bool → Bool × List Char
  | [], _, isnum => (isnum, [])
  | c :: cs, num, isnum =>
    if c.isDigit then
      if 1000000 < num then (false, [])
      else parsenum cs (num * 10 + (c.toNat - 48)) true
    else (isnum, c :: cs)

/-- The argument-index scan `parseArgNumber` of Go's `fmt` on a text that starts with `[`:
the number of characters consumed and whether a well-formed index `[n]` was read. -/
def parseArgNumber (format : List Char) : Nat × Bool :=
  if format.length < 3 then (1, false)
  else
    match (format.drop 1).indexOf? ']' with
    | none => (1, false)
    | some j =>
      let inner := (format.drop 1).take j
      let r := parsenum inner 0 false
      if r.1 = true ∧ r.2 = [] then (j + 2, true) else (j + 2, false)

/-- Method `argNumber` of Go's `fmt` when no operand was passed: the remaining text, whether
an index was found, and whether the argument number is still good. -/
def argNumber (format : List Char) (good : Bool) : List Char × Bool × Bool :=
  match format with
  | '[' :: _ =>
    let r := parseArgNumber format
    (format.drop r.1, r.2, false)
  | _ => (format, false, good)

/-- One verb of `doPrintf`, entered right after a `%`, when no operand was passed: the text
written and the text left to format. A `.` opens a precision only when a character follows
it (`i+1 < end`); a `.` that ends the format is the verb. -/
def printfVerb (afterPercent : List Char) : List Char × List Char :=
  let s0 := afterPercent.dropWhile (fun c => c == '#' || c == '0' || c == '+' || c == '-' || c == ' ')
  let a1 := argNumber s0 true
  -- width
  let w : List Char × List Char × Bool × Bool :=
    match a1.1 with
    | '*' :: rest => ("%!(BADWIDTH)".toList, rest, false, a1.2.2)
    | s =>
      let r := parsenum s 0 false
      ([], r.2, a1.2.1, if a1.2.1 && r.1 then false else a1.2.2)
  -- precision
  let p : List Char × List Char × Bool × Bool :=
    match w.2.1 with
    | '.' :: next :: rest0 =>
      let rest := next :: rest0
      let good := if w.2.2.1 then false else w.2.2.2
      let a2 := argNumber rest good
      match a2.1 with
      | '*' :: rest2 => (w.1 ++ "%!(BADPREC)".toList, rest2, false, a2.2.2)
      | s => (w.1, (parsenum s 0 false).2, a2.2.1, a2.2.2)
    | s => (w.1, s, w.2.2.1, w.2.2.2)
  let a3 : List Char × Bool × Bool :=
    if p.2.2.1 then (p.2.1, true, p.2.2.2) else argNumber p.2.1 p.2.2.2
  match a3.1 with
  | [] => (p.1 ++ "%!(NOVERB)".toList, [])
  | verb :: rest =>
    if verb = '%' then (p.1 ++ ['%'], rest)
    else if a3.2.2 = false then (p.1 ++ '%' :: '!' :: verb :: "(BADINDEX)".toList, rest)
    else (p.1 ++ '%' :: '!' :: verb :: "(MISSING)".toList, rest)

/-- The loop of `doPrintf` when no operand was passed; `fuel` bounds the number of verbs. -/
def doPrintf : Nat → List Char → List Char
  | 0, format => format.takeWhile (fun c => c != '%')
  | fuel + 1, format =>
    let lit := format.takeWhile (fun c => c != '%')
    match format.dropWhile (fun c => c != '%') with
    | [] => lit
    | _ :: afterPercent =>
      let r := printfVerb afterPercent
      lit ++ r.1 ++ doPrintf fuel r.2

/-- Call `fmt.Sprintf(format)` with a format and no operand. Every verb consumes at least
the `%` that starts it, so the length of the format is enough fuel. -/
def Sprintf (format : String) : String :=
  String.mk (doPrintf format.length format.toList)

/-- Rendering of an `int` by the verb `%v`. -/
def formatInt (z : Int) : String :=
  if 0 ≤ z then Nat.repr z.toNat else "-" ++ Nat.repr (-z).toNat

/-- Arithmetic of the 64-bit `int`: the representative of `z` modulo `2 ^ 64` in
`[-2 ^ 63, 2 ^ 63)`. -/
def wrapInt64 (z : Int) : Int := (z + 2 ^ 63) % 2 ^ 64 - 2 ^ 63

/-- Conversion `int(x)` of an integral `float64`: the integer itself when it fits in 64 bits
(outside that range Go leaves the result to the implementation; amd64 gives `-2 ^ 63`). -/
def floatToInt (c : Int) : Int :=
  if -(2 ^ 63) ≤ c ∧ c < 2 ^ 63 then c else -(2 ^ 63)

/-- The number of binary digits of `n`, counted in at most `fuel` halvings. -/
def bitLength : Nat → Nat → Nat
  | 0, _ => 0
  | fuel + 1, n => if n = 0 then 0 else bitLength fuel (n / 2) + 1

/-- The exponent `L` with `2 ^ L ≤ n / d < 2 ^ (L + 1)`, for positive `n` and `d`. -/
def binade (n d : Nat) : Int :=
  let ln : Int := (bitLength n n : Int) - 1
  let ld : Int := (bitLength d d : Int) - 1
  let L := ln - ld
  if (if 0 ≤ L then d * 2 ^ L.toNat ≤ n else d ≤ n * 2 ^ (-L).toNat) then L else L - 1

/-- Rounding of the quotient `n / d` of two naturals to the nearest binary64, ties to even:
the significand `m` and the exponent `e` of the result `m * 2 ^ e`. The exponent is that of
the last of the 53 binary digits, and no less than `-1074` (subnormal results). -/
def roundBinary64 (n d : Nat) : Nat × Int :=
  if n = 0 then (0, 0)
  else
    let e : Int := max (binade n d - 52) (-1074)
    let num := if 0 ≤ e then n else n * 2 ^ (-e).toNat
    let den := if 0 ≤ e then d * 2 ^ e.toNat else d
    let q := num / den
    let r := num % den
    let m :=
      if 2 * r < den then q
      else if den < 2 * r then q + 1
      else if q % 2 = 0 then q
      else q + 1
    (m, e)

/-- Function `math.Ceil` on the binary64 `m * 2 ^ e`, or on `-(m * 2 ^ e)` when `negative`. -/
def ceilBinary64 (negative : Bool) (m : Nat) (e : Int) : Int :=
  if 0 ≤ e then
    if negative then -((m * 2 ^ e.toNat : Nat) : Int) else ((m * 2 ^ e.toNat : Nat) : Int)
  else if negative then -((m / 2 ^ (-e).toNat : Nat) : Int)
  else (((m + 2 ^ (-e).toNat - 1) / 2 ^ (-e).toNat : Nat) : Int)

/-- Expression `math.Ceil(num/100.0)` for a finite `float64` `num`: the quotient of `num` by
`100` is rounded to a binary64 first, and the ceiling is taken of the rounded quotient. -/
def ceilDiv100 (num : ℚ) : Int :=
  let r := roundBinary64 num.num.natAbs (num.den * 100)
  ceilBinary64 (decide (num.num < 0)) r.1 r.2

/-! ## `helper.go` -/

/-- Source `GetMainControllerName`: split at `-`, drop the last piece, join with `-`, and
pass the result to `fmt.Sprintf` as the format. -/
def GetMainControllerName (podName : String) : String :=
  let podNameTuple := splitChars '-' podName.toList
  let controllerNameTuple := podNameTuple.take (podNameTuple.length - 1)
  Sprintf (String.mk (joinChars '-' controllerNameTuple))

/-- Expression `int(math.Ceil(num/100.0))*100` of `RoundUPAndStringify`. -/
def roundedHundreds (num : ℚ) : Int :=
  wrapInt64 (floatToInt (ceilDiv100 num) * 100)

/-- Source `RoundUPAndStringify`. -/
def RoundUPAndStringify (num : ℚ) (metric : String) : String :=
  if metric = "cpu" then formatInt (roundedHundreds num) ++ "m"
  else if metric = "mem" then formatInt (roundedHundreds num) ++ "Mi"
  else formatInt (roundedHundreds num) ++ "m"

/-- Source `SplitKeysWithContainerName`; `none` is the panic of the index `[1]` when the
first comma-separated piece mentions `container` and holds no `=`. -/
def SplitKeysWithContainerName (key : String) : Option String :=
  let splitKeys := (splitChars ',' key.toList).headD []
  if containsChars "container".toList splitKeys then
    match (splitChars '=' splitKeys).get? 1 with
    | some splitContainerName => some (String.mk (trimChar '"' splitContainerName))
    | none => none
  else some ""

/-! ## Library types and functions used by `metrics.go` -/

/-- Type `model.Sample` of the Prometheus client: the label set (the metric name is the
label `__name__`), and the texts printed by `Value.String()` and `Timestamp.String()`. -/
structure Sample where
  Metric : List (String × String)
  Value : String
  Timestamp : String
deriving DecidableEq, Repr

/-- Type `model.Value` as far as the type switch of the code tells its cases apart. -/
inductive QueryValue where
  | vector (samples : List Sample)
  | other
deriving DecidableEq, Repr

/-- The metrics store and the float parser, as seen by `metrics.go`: `Query q` is what
`v1api.Query(ctx, q, time.Now())` returns (an error text or a value; warnings are only
logged), `ParseFloat s` is `strconv.ParseFloat(s, 64)` with `none` for an error. -/
structure MetricsStore where
  Query : String → Except String QueryValue
  ParseFloat : String → Option ℚ

/-- A hexadecimal digit, in lower case. -/
def hexDigit (n : Nat) : Char :=
  "0123456789abcdef".toList.getD n '0'

/-- Verb `%q` on a string (`strconv.Quote`): the quote and the backslash are escaped, the
ASCII control characters are written as `\a`, `\b`, `\f`, `\n`, `\r`, `\t`, `\v` or as
`\x` and two hexadecimal digits, and every other character is kept (characters beyond ASCII
are taken to be printable). -/
def quoteChars : List Char → List Char
  | [] => []
  | c :: cs =>
    if c = '"' then '\\' :: '"' :: quoteChars cs
    else if c = '\\' then '\\' :: '\\' :: quoteChars cs
    else if c.toNat = 7 then '\\' :: 'a' :: quoteChars cs
    else if c.toNat = 8 then '\\' :: 'b' :: quoteChars cs
    else if c.toNat = 12 then '\\' :: 'f' :: quoteChars cs
    else if c.toNat = 10 then '\\' :: 'n' :: quoteChars cs
    else if c.toNat = 13 then '\\' :: 'r' :: quoteChars cs
    else if c.toNat = 9 then '\\' :: 't' :: quoteChars cs
    else if c.toNat = 11 then '\\' :: 'v' :: quoteChars cs
    else if c.toNat < 32 ∨ c.toNat = 127 then
      '\\' :: 'x' :: hexDigit (c.toNat / 16) :: hexDigit (c.toNat % 16) :: quoteChars cs
    else c :: quoteChars cs

/-- Order of Go strings (byte-wise lexicographic, which on UTF-8 text is the order of the
code points), as used by `sort.Strings`. -/
def charsLE : List Char → List Char → Bool
  | [], _ => true
  | _ :: _, [] => false
  | a :: as, b :: bs =>
    if a.toNat < b.toNat then true
    else if b.toNat < a.toNat then false
    else charsLE as bs

/-- Text `fmt.Sprintf("%s=%q", label, value)` of one label. -/
def labelString (l : String × String) : String :=
  l.1 ++ "=" ++ String.mk ('"' :: quoteChars l.2.toList ++ ['"'])

/-- Method `Metric.String()` of the Prometheus client: the metric name followed by the
labels other than `__name__`, sorted as texts and joined by `", "` between braces. -/
def metricString (m : List (String × String)) : String :=
  let metricName := (m.lookup "__name__").getD ""
  let labelStrings := (m.filter (fun l => l.1 ≠ "__name__")).map labelString
  match labelStrings with
  | [] => if (m.lookup "__name__").isSome then metricName else "\x7b\x7d"
  | _ =>
    metricName ++ "\x7b" ++
      ", ".intercalate (labelStrings.insertionSort (fun a b => charsLE a.toList b.toList)) ++ "\x7d"

/-- Method `Sample.String()`, the text `fmt.Sprintf("%v", value)` of a sample. -/
def sampleString (s : Sample) : String :=
  metricString s.Metric ++ " => " ++ s.Value ++ " @[" ++ s.Timestamp ++ "]"

/-! ## `metrics.go` -/

/-- Source `ResourceAllocables`. A map is `none` when it is `nil`. -/
structure ResourceAllocables where
  Name : String
  AvgCpu : Option (List (String × ℚ)) := none
  AvgMem : Option (List (String × ℚ)) := none
  PeakCPU : Option (List (String × ℚ)) := none
  PeakMem : Option (List (String × ℚ)) := none
  BaseCPUQuery : String := ""
  BaseMemQuery : String := ""
  PeakCPUQuery : String := ""
  PeakMemQuery : String := ""
deriving DecidableEq, Repr

/-- Source `QueryBuilder`. -/
def QueryBuilder (resAlloc : ResourceAllocables) : ResourceAllocables :=
  { resAlloc with
    BaseCPUQuery := "sum(rate(container_cpu_usage_seconds_total\x7bpod=~\"" ++ resAlloc.Name ++
      "-.+\"\x7d[7d])) by (pod, container) * 1000"
    BaseMemQuery := "avg(container_memory_working_set_bytes\x7bpod=~\"" ++ resAlloc.Name ++
      "-.+\"\x7d) by (pod, container) / 1000000"
    PeakCPUQuery := "max_over_time(rate(container_cpu_usage_seconds_total\x7bpod=~\"" ++
      resAlloc.Name ++ "-.+\"\x7d[1m])[168h:1m]) * 1000"
    PeakMemQuery := "max_over_time(container_memory_working_set_bytes\x7bpod=~\"" ++
      resAlloc.Name ++ "-.+\"\x7d[7d]) / 1000000" }

/-- Statement `allocations[name] = append(allocations[name], v)`. -/
def appendAllocation (name : String) (v : ℚ) : List (String × List ℚ) → List (String × List ℚ)
  | [] => [(name, [v])]
  | (key, vs) :: rest =>
    if key = name then (key, vs ++ [v]) :: rest
    else (key, vs) :: appendAllocation name v rest

/-- What a loop of the reduction ends with. -/
inductive Collected (α : Type) where
  | done (a : α)
  | failed (err : String)
  | panicked
deriving DecidableEq, Repr

/-- The loop `for key, value := range r` of `AssignCPUAllocations`: parse the value (an
error ends the method), take the container name from the printed sample, and append the value
to the group of that name unless the name is empty. -/
def collectAllocations (store : MetricsStore) :
    List Sample → List (String × List ℚ) → Collected (List (String × List ℚ))
  | [], allocations => .done allocations
  | value :: rest, allocations =>
    match store.ParseFloat value.Value with
    | none => .failed ("strconv.ParseFloat: parsing " ++ value.Value)
    | some v =>
      match SplitKeysWithContainerName (sampleString value) with
      | none => .panicked
      | some containerName =>
        if containerName ≠ "" then
          collectAllocations store rest (appendAllocation containerName v allocations)
        else collectAllocations store rest allocations

/-- The loop `for key, _ := range allocations`: sort each group with `sort.Float64s` and keep
its last element; `none` is the panic of the index `len(metricsSlice)-1` on an empty group. -/
def assignAllocations : List (String × List ℚ) → Option (List (String × ℚ))
  | [] => some []
  | (key, metricsSlice) :: rest =>
    match (metricsSlice.insertionSort (fun a b => a ≤ b)).getLast?, assignAllocations rest with
    | some last, some assigned => some ((key, last) :: assigned)
    | _, _ => none

/-- One query of `AssignCPUAllocations` or `AssignMemoryAllocations` with the type switch on
its result: the map to assign, or the error the method returns. -/
def queryAllocations (store : MetricsStore) (query typeError : String) :
    Collected (List (String × ℚ)) :=
  match store.Query query with
  | .error err => .failed err
  | .ok (.vector r) =>
    match collectAllocations store r [] with
    | .done allocations =>
      match assignAllocations allocations with
      | some toAssign => .done toAssign
      | none => .panicked
    | .failed err => .failed err
    | .panicked => .panicked
  | .ok .other => .failed typeError

/-- Source `AssignCPUAllocations`: the record as the method leaves it and the error it
returns (`none` for `nil`); the outer `none` is a panic. -/
def AssignCPUAllocations (store : MetricsStore) (resAlloc : ResourceAllocables) :
    Option (ResourceAllocables × Option String) :=
  match queryAllocations store resAlloc.BaseCPUQuery "type not implemented" with
  | .panicked => none
  | .failed err => some (resAlloc, some err)
  | .done cpuAllocationToAssign =>
    let resAlloc := { resAlloc with AvgCpu := some cpuAllocationToAssign }
    match queryAllocations store resAlloc.PeakCPUQuery "metric type not implemented" with
    | .panicked => none
    | .failed err => some (resAlloc, some err)
    | .done maxCPUAllocationToAssign =>
      some ({ resAlloc with PeakCPU := some maxCPUAllocationToAssign }, none)

/-- Source `AssignMemoryAllocations`. -/
def AssignMemoryAllocations (store : MetricsStore) (resAlloc : ResourceAllocables) :
    Option (ResourceAllocables × Option String) :=
  match queryAllocations store resAlloc.BaseMemQuery "type not implemented" with
  | .panicked => none
  | .failed err => some (resAlloc, some err)
  | .done memoryAllocationToAssign =>
    let resAlloc := { resAlloc with AvgMem := some memoryAllocationToAssign }
    match queryAllocations store resAlloc.PeakMemQuery "metric type not implemented" with
    | .panicked => none
    | .failed err => some (resAlloc, some err)
    | .done maxMemoryAllocationToAssign =>
      some ({ resAlloc with PeakMem := some maxMemoryAllocationToAssign }, none)

/-- Source `Propagate`, for the client built from the configured address: build the
queries, assign the CPU maps and reset both to `nil` on an error, then do the same for the
memory maps. `none` is a panic inside one of the two methods. -/
def Propagate (store : MetricsStore) (app : String) : Option ResourceAllocables :=
  let resAlloc := QueryBuilder { Name := app }
  match AssignCPUAllocations store resAlloc with
  | none => none
  | some (afterCPU, errCPU) =>
    let resAlloc :=
      match errCPU with
      | some _ => { afterCPU with PeakCPU := none, AvgCpu := none }
      | none => afterCPU
    match AssignMemoryAllocations store resAlloc with
    | none => none
    | some (afterMem, errMem) =>
      match errMem with
      | some _ => some { afterMem with PeakMem := none, AvgMem := none }
      | none => some afterMem

/-! ## Library types and functions used by `webhook.go` -/

/-- Type `metav1.OwnerReference`, the two fields the code reads. -/
structure OwnerReference where
  Kind : String
  Name : String
deriving DecidableEq, Repr

/-- Type `core.ResourceRequirements` over a type `Q` of quantities; a `core.ResourceList` is
a map from resource names to quantities. -/
structure ResourceRequirements (Q : Type) where
  Requests : List (String × Q)
  Limits : List (String × Q)
deriving DecidableEq, Repr

/-- Type `core.Container`, the two fields the code reads or writes. -/
structure Container (Q : Type) where
  Name : String
  Resources : ResourceRequirements Q
deriving DecidableEq, Repr

/-- Type `core.Pod`, the fields the code reads or writes. -/
structure Pod (Q : Type) where
  Name : String
  Namespace : String
  Annotations : List (String × String)
  OwnerReferences : List OwnerReference
  Containers : List (Container Q)
deriving DecidableEq, Repr

/-- Package `resource` of the Kubernetes API machinery, as seen by `webhook.go`:
`MustParse` reads a quantity from its text and `String` prints the canonical text.
`MustParse` panics on a text that is no quantity; the loop passes it printed quantities and
integers followed by `m` or `Mi` only, which all are. -/
structure QuantityLib (Q : Type) where
  MustParse : String → Q
  String : Q → String

/-- Function `strconv.ParseBool`: `none` for an error. -/
def ParseBool (str : String) : Option Bool :=
  if str = "1" ∨ str = "t" ∨ str = "T" ∨ str = "TRUE" ∨ str = "true" ∨ str = "True" then
    some true
  else if str = "0" ∨ str = "f" ∨ str = "F" ∨ str = "FALSE" ∨ str = "false" ∨ str = "False" then
    some false
  else none

/-- Type `admission.Response`, as far as the code tells its results apart: allowed without a
patch, an error with an HTTP status, or the patch from the received pod to the given pod. -/
inductive Response (Q : Type) where
  | Allowed (reason : String)
  | Errored (code : Nat) (err : String)
  | Patched (pod : Pod Q)
deriving DecidableEq, Repr

/-- Calls `rl.Cpu().String()` and `rl.Memory().String()`: the text of the entry under the
given resource name, and the text `0` of the zero quantity when there is no such entry. -/
def resourceString {Q : Type} (lib : QuantityLib Q) (rl : List (String × Q)) (name : String) :
    String :=
  match rl.lookup name with
  | some q => lib.String q
  | none => "0"

/-! ## `webhook.go` -/

/-- Constant `PodAnnotation`. -/
def PodAnnotation : String := "app.traderepublic.com/set-resources"

/-- Source `podWebhook`, the field the decision depends on. -/
structure podWebhook where
  Annotation : Bool
deriving DecidableEq, Repr

/-- What the annotation check of `Handle` ends with: a response, or going on. -/
inductive Gate (Q : Type) where
  | respond (r : Response Q)
  | proceed
deriving DecidableEq, Repr

/-- The annotation check of `Handle` (the block `if a.Annotation`). -/
def annotationGate {Q : Type} (a : podWebhook) (pod : Pod Q) : Gate Q :=
  if podWebhook.Annotation a then
    match pod.Annotations.lookup PodAnnotation with
    | none =>
      .respond (.Allowed ("Got no pod annotation. For setting resources, ignoring pod " ++
        pod.Name ++ " in namespace " ++ pod.Namespace))
    | some value =>
      match ParseBool value with
      | none => .respond (.Errored 400 ("strconv.ParseBool: parsing " ++ value))
      | some parsed =>
        if !parsed then
          .respond (.Allowed ("Pod annotation present. But value is set as false for pod " ++
            pod.Name ++ " on namespace " ++ pod.Namespace ++ ". Ignoring"))
        else .proceed
  else .proceed

/-- The `switch pod.OwnerReferences[0].Kind` of `Handle`: the controller name, with `none`
for the panic of the index `[0]` on an empty list. -/
def resolveController (ownerReferences : List OwnerReference) : Option String :=
  match ownerReferences.get? 0 with
  | none => none
  | some owner =>
    if owner.Kind = "ReplicaSet" then some (GetMainControllerName owner.Name)
    else if owner.Kind = "DaemonSet" ∨ owner.Kind = "StatefulSet" then some owner.Name
    else some (GetMainControllerName owner.Name)

/-- One of the four blocks `if m != nil { for key, value := range m { ... } }` of the
container loop: every entry whose key is the container name overwrites the text. -/
def overrideFrom (m : Option (List (String × ℚ))) (containerName metric current : String) :
    String :=
  match m with
  | none => current
  | some entries =>
    entries.foldl
      (fun acc kv => if containerName = kv.1 then RoundUPAndStringify kv.2 metric else acc)
      current

/-- The body of the loop `for cont := range pod.Spec.Containers` of `Handle`. -/
def rewriteContainer {Q : Type} (lib : QuantityLib Q) (resourceValues : ResourceAllocables)
    (container : Container Q) : Container Q :=
  let containerAvgCpu := resourceString lib container.Resources.Requests "cpu"
  let containerAvgMem := resourceString lib container.Resources.Requests "memory"
  let containerPeakCpu := resourceString lib container.Resources.Limits "cpu"
  let containerPeakMem := resourceString lib container.Resources.Limits "memory"
  let containerAvgCpu := overrideFrom resourceValues.AvgCpu container.Name "cpu" containerAvgCpu
  let containerAvgMem := overrideFrom resourceValues.AvgMem container.Name "mem" containerAvgMem
  let containerPeakCpu :=
    overrideFrom resourceValues.PeakCPU container.Name "cpu" containerPeakCpu
  let containerPeakMem :=
    overrideFrom resourceValues.PeakMem container.Name "mem" containerPeakMem
  { container with
    Resources :=
      { Requests := [("cpu", lib.MustParse containerAvgCpu),
                     ("memory", lib.MustParse containerAvgMem)]
        Limits := [("cpu", lib.MustParse containerPeakCpu),
                   ("memory", lib.MustParse containerPeakMem)] } }

/-- Source `Handle` after a successful decode and a passed annotation check: resolve the
controller, fetch the record, rewrite every container and answer with the patch
(`json.Marshal` of a pod does not fail). `none` is a panic. -/
def resizePod {Q : Type} (lib : QuantityLib Q) (store : MetricsStore) (pod : Pod Q) :
    Option (Response Q) :=
  match resolveController pod.OwnerReferences with
  | none => none
  | some controllerName =>
    match Propagate store controllerName with
    | none => none
    | some resourceValues =>
      some (.Patched { pod with Containers := pod.Containers.map (rewriteContainer lib resourceValues) })

/-- Source `podWebhook.Handle`; `decoded` is what `a.decoder.Decode(req, pod)` gives. -/
def Handle {Q : Type} (lib : QuantityLib Q) (store : MetricsStore) (a : podWebhook)
    (decoded : Except String (Pod Q)) : Option (Response Q) :=
  match decoded with
  | .error err => some (.Errored 400 err)
  | .ok pod =>
    match annotationGate a pod with
    | .respond r => some r
    | .proceed => resizePod lib store pod

/-! ## Vocabulary of the statements -/

/-- The entries of a map of the record that are keyed by `name` (none for a `nil` map). -/
def entriesFor (m : Option (List (String × ℚ))) (name : String) : List (String × ℚ) :=
  (m.getD []).filter (fun kv => kv.1 = name)

/-- The four dimensions the container loop rewrites. -/
inductive Dimension where
  | requestsCpu
  | requestsMemory
  | limitsCpu
  | limitsMemory
deriving DecidableEq, Repr

/-- The map of the record a dimension is taken from. -/
def Dimension.recordMap : Dimension → ResourceAllocables → Option (List (String × ℚ))
  | .requestsCpu, r => r.AvgCpu
  | .requestsMemory, r => r.AvgMem
  | .limitsCpu, r => r.PeakCPU
  | .limitsMemory, r => r.PeakMem

/-- The `metric` argument `RoundUPAndStringify` gets for a dimension. -/
def Dimension.metric : Dimension → String
  | .requestsCpu => "cpu"
  | .requestsMemory => "mem"
  | .limitsCpu => "cpu"
  | .limitsMemory => "mem"

/-- The resource name of a dimension. -/
def Dimension.resource : Dimension → String
  | .requestsCpu => "cpu"
  | .requestsMemory => "memory"
  | .limitsCpu => "cpu"
  | .limitsMemory => "memory"

/-- The value a container declares for a dimension, `none` when it declares none. -/
def declared {Q : Type} (d : Dimension) (c : Container Q) : Option Q :=
  match d with
  | .requestsCpu => c.Resources.Requests.lookup "cpu"
  | .requestsMemory => c.Resources.Requests.lookup "memory"
  | .limitsCpu => c.Resources.Limits.lookup "cpu"
  | .limitsMemory => c.Resources.Limits.lookup "memory"

/-- A quantity library that keeps a quantity as its text, for concrete runs. -/
def textQuantities : QuantityLib String where
  MustParse := fun s => s
  String := fun q => q

/-- The digits of an unsigned decimal integer, read from the left. -/
def parseDigits : List Char → Nat → Option Nat
  | [], n => some n
  | c :: cs, n => if c.isDigit then parseDigits cs (n * 10 + (c.toNat - 48)) else none

/-- A float parser for concrete runs: it reads the texts made of decimal digits only, on
which it gives the value `strconv.ParseFloat` gives, and reports an error on any other. -/
def parseUnsigned (s : String) : Option ℚ :=
  match s.toList with
  | [] => none
  | cs => (parseDigits cs 0).map (fun n => (n : ℚ))

/-- A store for concrete runs: every query returns the given vector. -/
def vectorStore (samples : List Sample) : MetricsStore where
  Query := fun _ => .ok (.vector samples)
  ParseFloat := parseUnsigned

/-- The names the Prometheus data model allows hold no comma: neither a label name nor the
metric name (the value of the label `__name__`) of a sample does. -/
def validSample (s : Sample) : Prop :=
  ∀ l ∈ s.Metric, ',' ∉ l.1.toList ∧ (l.1 = "__name__" → ',' ∉ l.2.toList)

/-- A store whose vectors hold samples with such names only. -/
def validStore (store : MetricsStore) : Prop :=
  ∀ q r, store.Query q = .ok (.vector r) → ∀ s ∈ r, validSample s

/-- A query fails: the store reports an error, or the result is not an instant vector, or
the value of one of its samples does not parse as a float. -/
def queryFails (store : MetricsStore) (q : String) : Prop :=
  (∃ err, store.Query q = .error err) ∨ store.Query q = .ok .other ∨
    ∃ r, store.Query q = .ok (.vector r) ∧ ∃ s ∈ r, store.ParseFloat s.Value = none

/-- The pair of maps `Propagate` leaves for two queries of one kind: both maps when both
queries gave one, both `nil` otherwise. -/
def bothOrNil (base peak : Collected (List (String × ℚ))) :
    Option (List (String × ℚ)) × Option (List (String × ℚ)) :=
  match base, peak with
  | .done a, .done b => (some a, some b)
  | _, _ => (none, none)

/-- A store for concrete runs: the base CPU query of the workload `web` meets an
unreachable store, every other query returns one sample of container `web`. -/
def cpuDownStore : MetricsStore where
  Query := fun q =>
    if q = (QueryBuilder { Name := "web" }).BaseCPUQuery then .error "connection refused"
    else .ok (.vector [⟨[("container", "web"), ("pod", "web-6f7d9c9fb6-x2kvp")], "150", "1"⟩])
  ParseFloat := parseUnsigned

/-- The parsed values, in the order of the vector, of the samples to which
`SplitKeysWithContainerName` gives the name `name`. -/
def valuesNamed (store : MetricsStore) (r : List Sample) (name : String) : List ℚ :=
  r.filterMap (fun s =>
    if SplitKeysWithContainerName (sampleString s) = some name then store.ParseFloat s.Value
    else none)

/-- The invariant of the loop over the vector: the groups collected from the samples `pre`. -/
def GroupsOf (store : MetricsStore) (pre : List Sample)
    (groups : List (String × List ℚ)) : Prop :=
  (groups.map Prod.fst).Nodup ∧
  (∀ k vs, (k, vs) ∈ groups → k ≠ "" ∧ vs ≠ [] ∧ vs = valuesNamed store pre k) ∧
  (∀ name, name ≠ "" → valuesNamed store pre name ≠ [] → name ∈ groups.map Prod.fst)

/-- A text without the characters that `%q` escapes or that `SplitKeysWithContainerName`
splits and trims at (the names of Kubernetes containers are such texts). -/
def plainName (c : String) : Prop :=
  ∀ ch ∈ c.toList,
    ch ≠ ',' ∧ ch ≠ '=' ∧ ch ≠ '"' ∧ ch ≠ '\\' ∧ 32 ≤ ch.toNat ∧ ch.toNat ≠ 127

/-- A sample with the label set of the base queries (`by (pod, container)`): exactly the
labels `container` and `pod`, the container name plain and not empty. -/
def baseShaped (s : Sample) : Prop :=
  ∃ c p, s.Metric = [("container", c), ("pod", p)] ∧ plainName c ∧ c ≠ ""

/-- The store of the end-to-end scenario: for the workload `web` the base CPU query returns
the samples `50`, `73`, `90` and the peak CPU query the samples `120`, `340` of container
`web`; the memory queries return empty vectors and any other query an error. -/
def scenarioStore : MetricsStore where
  Query := fun q =>
    if q = (QueryBuilder { Name := "web" }).BaseCPUQuery then
      .ok (.vector [⟨[("container", "web"), ("pod", "web-6f7d9c9fb6-x2kvp")], "50", "1"⟩,
        ⟨[("container", "web"), ("pod", "web-6f7d9c9fb6-x2kvp")], "73", "2"⟩,
        ⟨[("container", "web"), ("pod", "web-6f7d9c9fb6-x2kvp")], "90", "3"⟩])
    else if q = (QueryBuilder { Name := "web" }).PeakCPUQuery then
      .ok (.vector [⟨[("container", "web"), ("pod", "web-6f7d9c9fb6-x2kvp")], "120", "1"⟩,
        ⟨[("container", "web"), ("pod", "web-6f7d9c9fb6-x2kvp")], "340", "2"⟩])
    else if q = (QueryBuilder { Name := "web" }).BaseMemQuery then .ok (.vector [])
    else if q = (QueryBuilder { Name := "web" }).PeakMemQuery then .ok (.vector [])
    else .error "unknown workload"
  ParseFloat := parseUnsigned

/-- The pod of the end-to-end scenario: `web-6f7d9c9fb6-x2kvp`, owned by the ReplicaSet
`web-6f7d9c9fb6`, with the opt-in annotation `true` and one container `web`. -/
def scenarioPod : Pod String where
  Name := "web-6f7d9c9fb6-x2kvp"
  Namespace := "default"
  Annotations := [( PodAnnotation, "true")]
  OwnerReferences := [⟨"ReplicaSet", "web-6f7d9c9fb6"⟩]
  Containers :=
    [{ Name := "web",
       Resources := { Requests := [("cpu", "50m"), ("memory", "64Mi")],
                      Limits := [("memory", "128Mi")] } }]

/-! ## Rounding (`RoundUPAndStringify`) -/

theorem wrapInt64_of_fits (z : Int) (h0 : -(2 ^ 63) ≤ z) (h1 : z < 2 ^ 63) :
    wrapInt64 z = z := by
  unfold wrapInt64
  rw [Int.emod_eq_of_lt (by omega) (by omega)]
  omega

/-- C1 (failing inputs): at `num = 1e19` the quotient `1e17` converts to `int` and its
product by `100` leaves the 64-bit range and wraps, so the text is `-8446744073709551616m`
and not `10000000000000000000m`; at `num = 56294995342131304` (a `float64`) the quotient
rounds to the binary64 `562949953421313` before the ceiling is taken, so the text is
`56294995342131300m`, a multiple of 100 below `num`, and not `56294995342131400m`. The
values `0`, `73`, `100`, `101` give `0m`, `100m`, `100m`, `200m`, and `(150, "mem")` gives
`200Mi`. -/
theorem RoundUPAndStringify_misrounds :
    RoundUPAndStringify 10000000000000000000 "cpu" = "-8446744073709551616m" ∧
    RoundUPAndStringify 56294995342131304 "cpu" = "56294995342131300m" ∧
    ceilDiv100 56294995342131304 = 562949953421313 ∧
    (562949953421313 * 100 : ℚ) < 56294995342131304 ∧
    RoundUPAndStringify 56294995342131304 "mem" = "56294995342131300Mi" ∧
    RoundUPAndStringify 0 "cpu" = "0m" ∧
    RoundUPAndStringify 73 "cpu" = "100m" ∧
    RoundUPAndStringify 100 "cpu" = "100m" ∧
    RoundUPAndStringify 101 "cpu" = "200m" ∧
    RoundUPAndStringify 150 "mem" = "200Mi" := by
  refine ⟨by decide, by decide, by decide, by norm_num, by decide, by decide, by decide,
    by decide, by decide, by decide⟩

/-! ## The container loop of `Handle` -/

theorem foldl_override_absent (entries : List (String × ℚ)) (name metric current : String)
    (h : ∀ kv ∈ entries, kv.1 ≠ name) :
    entries.foldl
      (fun acc kv => if name = kv.1 then RoundUPAndStringify kv.2 metric else acc) current
      = current := by
  induction entries generalizing current with
  | nil => rfl
  | cons kv rest ih =>
    have hk : ¬ (name = kv.1) := fun e => h kv (List.mem_cons_self _ _) e.symm
    simp only [List.foldl_cons, if_neg hk]
    exact ih current (fun x hx => h x (List.mem_cons_of_mem _ hx))

theorem foldl_override_mem (entries : List (String × ℚ)) (name metric current : String) (v : ℚ)
    (hnd : (entries.map Prod.fst).Nodup) (hmem : (name, v) ∈ entries) :
    entries.foldl
      (fun acc kv => if name = kv.1 then RoundUPAndStringify kv.2 metric else acc) current
      = RoundUPAndStringify v metric := by
  induction entries generalizing current with
  | nil => cases hmem
  | cons kv rest ih =>
    rw [List.map_cons, List.nodup_cons] at hnd
    rcases List.mem_cons.mp hmem with h | h
    · subst h
      simp only [List.foldl_cons, if_true]
      apply foldl_override_absent
      intro x hx e
      have hx2 := List.mem_map_of_mem Prod.fst hx
      rw [e] at hx2
      exact hnd.1 hx2
    · simp only [List.foldl_cons]
      exact ih _ hnd.2 h

theorem foldl_override_filter (entries : List (String × ℚ)) (name metric current : String) :
    entries.foldl
      (fun acc kv => if name = kv.1 then RoundUPAndStringify kv.2 metric else acc) current
      = (entries.filter (fun kv => kv.1 = name)).foldl
      (fun acc kv => if name = kv.1 then RoundUPAndStringify kv.2 metric else acc) current := by
  induction entries generalizing current with
  | nil => rfl
  | cons kv rest ih =>
    by_cases hk : kv.1 = name
    · rw [List.filter_cons_of_pos (by simpa using hk)]
      simp only [List.foldl_cons]
      exact ih _
    · rw [List.filter_cons_of_neg (by simpa using hk)]
      have hk2 : ¬ (name = kv.1) := fun e => hk e.symm
      simp only [List.foldl_cons, if_neg hk2]
      exact ih _

theorem overrideFrom_mem (m : List (String × ℚ)) (name metric current : String) (v : ℚ)
    (hnd : (m.map Prod.fst).Nodup) (hmem : (name, v) ∈ m) :
    overrideFrom (some m) name metric current = RoundUPAndStringify v metric :=
  foldl_override_mem m name metric current v hnd hmem

theorem overrideFrom_entriesFor (m : Option (List (String × ℚ))) (name metric current : String) :
    overrideFrom m name metric current
      = overrideFrom (some (entriesFor m name)) name metric current := by
  cases m with
  | none => rfl
  | some entries => exact foldl_override_filter entries name metric current

theorem overrideFrom_absent (m : Option (List (String × ℚ))) (name metric current : String)
    (h : ∀ entries, m = some entries → ∀ kv ∈ entries, kv.1 ≠ name) :
    overrideFrom m name metric current = current := by
  cases m with
  | none => rfl
  | some entries => exact foldl_override_absent entries name metric current (h entries rfl)

theorem lookup_cpu {Q : Type} (a b : Q) :
    List.lookup "cpu" [("cpu", a), ("memory", b)] = some a := by
  simp [List.lookup]

theorem lookup_memory {Q : Type} (a b : Q) :
    List.lookup "memory" [("cpu", a), ("memory", b)] = some b := by
  have h : ("memory" == "cpu") = false := by decide
  simp [List.lookup, h]

theorem declared_rewriteContainer {Q : Type} (lib : QuantityLib Q) (rv : ResourceAllocables)
    (c : Container Q) (d : Dimension) :
    declared d (rewriteContainer lib rv c) =
      some (lib.MustParse (overrideFrom (d.recordMap rv) c.Name d.metric
        (match declared d c with
         | some q => lib.String q
         | none => "0"))) := by
  cases d <;>
    simp only [declared, rewriteContainer, lookup_cpu, lookup_memory, Dimension.recordMap,
      Dimension.metric, resourceString]

theorem rewriteContainer_congr {Q : Type} (lib : QuantityLib Q) (rv rv2 : ResourceAllocables)
    (c : Container Q)
    (h : ∀ d : Dimension, entriesFor (d.recordMap rv2) c.Name = entriesFor (d.recordMap rv) c.Name) :
    rewriteContainer lib rv2 c = rewriteContainer lib rv c := by
  have h1 := h .requestsCpu
  have h2 := h .requestsMemory
  have h3 := h .limitsCpu
  have h4 := h .limitsMemory
  simp only [Dimension.recordMap] at h1 h2 h3 h4
  unfold rewriteContainer
  simp only []
  rw [overrideFrom_entriesFor rv2.AvgCpu, overrideFrom_entriesFor rv2.AvgMem,
    overrideFrom_entriesFor rv2.PeakCPU, overrideFrom_entriesFor rv2.PeakMem, h1, h2, h3, h4,
    ← overrideFrom_entriesFor rv.AvgCpu, ← overrideFrom_entriesFor rv.AvgMem,
    ← overrideFrom_entriesFor rv.PeakCPU, ← overrideFrom_entriesFor rv.PeakMem]

theorem Handle_patched_record {Q : Type} (lib : QuantityLib Q) (store : MetricsStore)
    (a : podWebhook) (pod patched : Pod Q)
    (h : Handle lib store a (.ok pod) = some (.Patched patched)) :
    annotationGate a pod = .proceed ∧
    ∃ name rv, resolveController pod.OwnerReferences = some name ∧
      Propagate store name = some rv ∧
      patched = { pod with Containers := pod.Containers.map (rewriteContainer lib rv) } := by
  unfold Handle at h
  simp only at h
  cases hg : annotationGate a pod with
  | respond r =>
    rw [hg] at h
    simp only [Option.some.injEq] at h
    subst h
    unfold annotationGate at hg
    split at hg
    · split at hg
      · simp at hg
      · split at hg
        · simp at hg
        · split at hg <;> simp at hg
    · simp at hg
  | proceed =>
    rw [hg] at h
    simp only at h
    unfold resizePod at h
    cases hc : resolveController pod.OwnerReferences with
    | none => simp [hc] at h
    | some name =>
      cases hp : Propagate store name with
      | none => simp [hc, hp] at h
      | some rv =>
        simp only [hc, hp, Option.some.injEq, Response.Patched.injEq] at h
        exact ⟨rfl, name, rv, rfl, hp, h.symm⟩

set_option maxRecDepth 16384 in
theorem scenario_Handle :
    Handle textQuantities scenarioStore { Annotation := true } (.ok scenarioPod)
      = some (.Patched { scenarioPod with
          Containers :=
            [{ Name := "web",
               Resources := { Requests := [("cpu", "100m"), ("memory", "64Mi")],
                              Limits := [("cpu", "400m"), ("memory", "128Mi")] } }] }) := by
  decide

/-- C2: in the container loop of `Handle`, for every container and each of the four
dimensions, when the map of that dimension is non-nil and holds an entry keyed by the
container's name, the rewritten container declares for the dimension the quantity read from
`RoundUPAndStringify` of that entry (`"cpu"` for the CPU dimensions, `"mem"` for the memory
ones); two records whose maps hold the same entries under the container's name rewrite the
container alike, so entries under other keys never change it; with
`AvgCpu = {web: 90}`, `PeakCPU = {web: 340}` container `web` gets requests.cpu `100m` and
limits.cpu `400m`. The loop is that of `Handle`: a pod that passes the annotation check,
resolves to a controller and gets a record from `Propagate` is answered with the patch whose
containers are the pod's containers rewritten with that record; every patch `Handle` answers
with is of this kind, container by container; and in the end-to-end scenario (base CPU
samples `50`, `73`, `90`, peak CPU samples `120`, `340` for container `web`) the patched
container `web` has requests.cpu `100m` and limits.cpu `400m`. -/
theorem Handle_loop_applies_metrics :
    (∀ (Q : Type) (lib : QuantityLib Q) (rv : ResourceAllocables) (c : Container Q),
      (∀ (d : Dimension) (m : List (String × ℚ)) (v : ℚ),
        d.recordMap rv = some m → (m.map Prod.fst).Nodup → (c.Name, v) ∈ m →
        declared d (rewriteContainer lib rv c)
          = some (lib.MustParse (RoundUPAndStringify v d.metric))) ∧
      (∀ rv2 : ResourceAllocables,
        (∀ d : Dimension,
          entriesFor (d.recordMap rv2) c.Name = entriesFor (d.recordMap rv) c.Name) →
        rewriteContainer lib rv2 c = rewriteContainer lib rv c)) ∧
    (∀ (Q : Type) (lib : QuantityLib Q) (c : Container Q) (rv : ResourceAllocables),
      c.Name = "web" → rv.AvgCpu = some [("web", 90)] → rv.PeakCPU = some [("web", 340)] →
      declared .requestsCpu (rewriteContainer lib rv c) = some (lib.MustParse "100m") ∧
      declared .limitsCpu (rewriteContainer lib rv c) = some (lib.MustParse "400m")) ∧
    (∀ (Q : Type) (lib : QuantityLib Q) (store : MetricsStore) (a : podWebhook) (pod : Pod Q)
        (name : String) (rv : ResourceAllocables),
      annotationGate a pod = .proceed → resolveController pod.OwnerReferences = some name →
      Propagate store name = some rv →
      Handle lib store a (.ok pod)
        = some (.Patched { pod with Containers := pod.Containers.map (rewriteContainer lib rv) })) ∧
    (∀ (Q : Type) (lib : QuantityLib Q) (store : MetricsStore) (a : podWebhook)
        (pod patched : Pod Q),
      Handle lib store a (.ok pod) = some (.Patched patched) →
      ∃ name rv, resolveController pod.OwnerReferences = some name ∧
        Propagate store name = some rv ∧
        patched.Containers = pod.Containers.map (rewriteContainer lib rv) ∧
        List.Forall₂
          (fun c c2 => c2.Name = c.Name ∧
            ∀ (d : Dimension) (m : List (String × ℚ)) (v : ℚ),
              d.recordMap rv = some m → (m.map Prod.fst).Nodup → (c.Name, v) ∈ m →
              declared d c2 = some (lib.MustParse (RoundUPAndStringify v d.metric)))
          pod.Containers patched.Containers) ∧
    Handle textQuantities scenarioStore { Annotation := true } (.ok scenarioPod)
      = some (.Patched { scenarioPod with
          Containers :=
            [{ Name := "web",
               Resources := { Requests := [("cpu", "100m"), ("memory", "64Mi")],
                              Limits := [("cpu", "400m"), ("memory", "128Mi")] } }] }) := by
  have main : ∀ (Q : Type) (lib : QuantityLib Q) (rv : ResourceAllocables) (c : Container Q)
      (d : Dimension) (m : List (String × ℚ)) (v : ℚ),
      d.recordMap rv = some m → (m.map Prod.fst).Nodup → (c.Name, v) ∈ m →
      declared d (rewriteContainer lib rv c)
        = some (lib.MustParse (RoundUPAndStringify v d.metric)) := by
    intro Q lib rv c d m v hm hnd hmem
    rw [declared_rewriteContainer, hm, overrideFrom_mem m c.Name d.metric _ v hnd hmem]
  refine ⟨fun Q lib rv c => ⟨main Q lib rv c, fun rv2 h => rewriteContainer_congr lib rv rv2 c h⟩,
    ?_, ?_, ?_, scenario_Handle⟩
  · intro Q lib c rv hname havg hpeak
    have e1 : RoundUPAndStringify 90 "cpu" = "100m" := by decide
    have e2 : RoundUPAndStringify 340 "cpu" = "400m" := by decide
    have r1 := main Q lib rv c .requestsCpu [("web", 90)] 90 havg (by simp) (by simp [hname])
    have r2 := main Q lib rv c .limitsCpu [("web", 340)] 340 hpeak (by simp) (by simp [hname])
    simp only [Dimension.metric, e1, e2] at r1 r2
    exact ⟨r1, r2⟩
  · intro Q lib store a pod name rv hg hc hp
    simp only [Handle, hg, resizePod, hc, hp]
  · intro Q lib store a pod patched h
    obtain ⟨_, name, rv, hc, hp, hpatched⟩ := Handle_patched_record lib store a pod patched h
    have hmap : patched.Containers = pod.Containers.map (rewriteContainer lib rv) := by
      rw [hpatched]
    refine ⟨name, rv, hc, hp, hmap, ?_⟩
    rw [hmap, List.forall₂_map_right_iff, List.forall₂_same]
    intro c _
    exact ⟨rfl, main Q lib rv c⟩

/-- C2 (witness): the end-to-end scenario: the patch `Handle` answers with for the pod
`web-6f7d9c9fb6-x2kvp` holds the pod's containers rewritten with the record `Propagate`
returns for the controller `web`. -/
theorem Handle_loop_applies_metrics_witness :
    ∃ name rv, resolveController scenarioPod.OwnerReferences = some name ∧
      Propagate scenarioStore name = some rv ∧
      [({ Name := "web",
          Resources := { Requests := [("cpu", "100m"), ("memory", "64Mi")],
                         Limits := [("cpu", "400m"), ("memory", "128Mi")] } } :
          Container String)]
        = scenarioPod.Containers.map (rewriteContainer textQuantities rv) := by
  obtain ⟨name, rv, hc, hp, hmap, _⟩ :=
    Handle_loop_applies_metrics.2.2.2.1 String textQuantities scenarioStore
      { Annotation := true } scenarioPod
      { scenarioPod with
        Containers :=
          [{ Name := "web",
             Resources := { Requests := [("cpu", "100m"), ("memory", "64Mi")],
                            Limits := [("cpu", "400m"), ("memory", "128Mi")] } }] }
      scenario_Handle
  exact ⟨name, rv, hc, hp, hmap⟩

/-- C3 (as stated, refuted): a container that declares no CPU request, rewritten with a
record whose four maps are `nil`, declares the CPU request `0` afterwards: the dimension
does not stay undeclared. -/
theorem Handle_loop_declares_zero :
    declared .requestsCpu
        ({ Name := "web", Resources := { Requests := [], Limits := [] } } : Container String)
      = none ∧
    declared .requestsCpu
        (rewriteContainer textQuantities { Name := "web" }
          { Name := "web", Resources := { Requests := [], Limits := [] } })
      = some "0" := by
  constructor <;> rfl

/-- C3 (amended): for every container and every dimension whose map in the record is `nil`
or has no entry for the container's name, the rewritten container declares for that dimension
the quantity read back from the text of the container's pre-admission value, and the quantity
read from `0` when the container declared no value; so a declared value is reproduced exactly
whenever reading back the printed text of a quantity gives that quantity. -/
theorem Handle_loop_fail_open {Q : Type} (lib : QuantityLib Q) (rv : ResourceAllocables)
    (c : Container Q) (d : Dimension)
    (h : ∀ entries, d.recordMap rv = some entries → ∀ kv ∈ entries, kv.1 ≠ c.Name) :
    (∀ q, declared d c = some q →
      declared d (rewriteContainer lib rv c) = some (lib.MustParse (lib.String q))) ∧
    (declared d c = none →
      declared d (rewriteContainer lib rv c) = some (lib.MustParse "0")) ∧
    ((∀ q, lib.MustParse (lib.String q) = q) → ∀ q, declared d c = some q →
      declared d (rewriteContainer lib rv c) = some q) := by
  have key := declared_rewriteContainer lib rv c d
  rw [overrideFrom_absent _ _ _ _ h] at key
  refine ⟨?_, ?_, ?_⟩
  · intro q hq
    rw [key, hq]
  · intro hq
    rw [key, hq]
  · intro hrt q hq
    rw [key, hq, hrt]

/-- C3 (witness): the amended statement for a container that declares `250m` of CPU request
and a record whose CPU map has an entry for another container only. -/
theorem Handle_loop_fail_open_witness :
    declared .requestsCpu
        (rewriteContainer textQuantities { Name := "web", AvgCpu := some [("side", 90)] }
          { Name := "web", Resources := { Requests := [("cpu", "250m")], Limits := [] } })
      = some "250m" :=
  (Handle_loop_fail_open textQuantities { Name := "web", AvgCpu := some [("side", 90)] }
    { Name := "web", Resources := { Requests := [("cpu", "250m")], Limits := [] } }
    .requestsCpu (by
      intro entries he kv hkv
      simp only [Dimension.recordMap, Option.some.injEq] at he
      subst he
      simp only [List.mem_singleton] at hkv
      subst hkv
      decide)).2.2 (fun _ => rfl) "250m" rfl

/-! ## The vector reduction and `SplitKeysWithContainerName` -/

/-- C5 (failing inputs): `SplitKeysWithContainerName` reads the first comma-separated piece
of the printed sample, not the label `container`. A sample with the only label
`pod="container-app-5d8f7c-x2kvp"` has no `container` label and still gets a non-empty name;
a sample with the labels `app="x"`, `container="web"` carries the label and gets the empty
name; a sample with the only label `container="web"` gets a name that is not `web`. -/
theorem SplitKeysWithContainerName_misreads :
    (List.lookup "container" [("pod", "container-app-5d8f7c-x2kvp")] = none ∧
      SplitKeysWithContainerName
          (sampleString ⟨[("pod", "container-app-5d8f7c-x2kvp")], "7", "1"⟩)
        = some "container-app-5d8f7c-x2kvp\"\x7d ") ∧
    (List.lookup "container" [("app", "x"), ("container", "web")] = some "web" ∧
      SplitKeysWithContainerName
          (sampleString ⟨[("app", "x"), ("container", "web")], "7", "1"⟩)
        = some "") ∧
    (List.lookup "container" [("container", "web")] = some "web" ∧
      SplitKeysWithContainerName (sampleString ⟨[("container", "web")], "7", "1"⟩)
        = some "web\"\x7d ") := by
  decide

/-- C4 (failing inputs): on the vector `{container="a"}→5, {container="a"}→12,
{container="b"}→3` the reduction gives the keys `a"} ` and `b"} ` instead of `a` and `b`;
on a vector whose samples carry the labels `app`, `container`, `pod` it gives the empty map
although the samples name the container `web`; on samples with exactly the labels
`container` and `pod` it gives `{a: 12, b: 3}`, and on the empty vector the empty map. -/
theorem queryAllocations_misgroups :
    queryAllocations
        (vectorStore [⟨[("container", "a")], "5", "1"⟩, ⟨[("container", "a")], "12", "1"⟩,
          ⟨[("container", "b")], "3", "1"⟩]) "query" "type not implemented"
      = .done [("a\"\x7d ", 12), ("b\"\x7d ", 3)] ∧
    queryAllocations
        (vectorStore [⟨[("app", "x"), ("container", "web"), ("pod", "web-1")], "120", "1"⟩,
          ⟨[("app", "x"), ("container", "web"), ("pod", "web-2")], "340", "1"⟩])
        "query" "type not implemented"
      = .done [] ∧
    queryAllocations
        (vectorStore [⟨[("container", "a"), ("pod", "p-1")], "5", "1"⟩,
          ⟨[("container", "a"), ("pod", "p-2")], "12", "1"⟩,
          ⟨[("container", "b"), ("pod", "p-1")], "3", "1"⟩]) "query" "type not implemented"
      = .done [("a", 12), ("b", 3)] ∧
    queryAllocations (vectorStore []) "query" "type not implemented" = .done [] := by
  decide

/-! ## Owner resolution -/

/-- C6 (failing input): `GetMainControllerName` passes the joined name to `fmt.Sprintf` as
the format, so a `%` in the name is read as a verb: the owner `("ReplicaSet", "100%-5d8f7c")`
resolves to `100%!(NOVERB)` and not to `100%`, and `GetMainControllerName "a%d-x"` is
`a%!d(MISSING)`; the owners `("ReplicaSet", "web-6f7d9c9fb6")` and `("StatefulSet", "cache")`
resolve to `web` and `cache`. -/
theorem resolveController_reads_verbs :
    resolveController [⟨"ReplicaSet", "100%-5d8f7c"⟩] = some "100%!(NOVERB)" ∧
    GetMainControllerName ("100%" ++ "-" ++ "5d8f7c") ≠ "100%" ∧
    GetMainControllerName "a%d-x" = "a%!d(MISSING)" ∧
    resolveController [⟨"ReplicaSet", "web-6f7d9c9fb6"⟩] = some "web" ∧
    resolveController [⟨"StatefulSet", "cache"⟩] = some "cache" ∧
    resolveController [⟨"DaemonSet", "node-exporter"⟩] = some "node-exporter" ∧
    resolveController [⟨"Job", "backup-27891234"⟩] = some "backup" := by
  decide

/-! ## The annotation check -/

theorem annotationGate_proceed_iff {Q : Type} (a : podWebhook) (pod : Pod Q) :
    annotationGate a pod = .proceed ↔
      ( podWebhook.Annotation a = false ∨
        ∃ value, pod.Annotations.lookup PodAnnotation = some value ∧
          ParseBool value = some true) := by
  unfold annotationGate
  cases ha : podWebhook.Annotation a with
  | false => simp
  | true =>
    cases hl : pod.Annotations.lookup PodAnnotation with
    | none => simp
    | some value =>
      cases hp : ParseBool value with
      | none => simp [hp]
      | some parsed => cases parsed <;> simp [hp]

/-- C8: for every decoded pod: with the gate enabled and the opt-in annotation missing, or
present with a value that parses as boolean false, `Handle` answers "allowed" (a response
without a patch); with the gate enabled and a value that does not parse as a boolean it
answers with an error of status 400; the check lets the pod through exactly when the gate is
disabled or the value parses as boolean true, in which case `Handle` is the owner resolution
and mutation (`resizePod`), and in every other case the response carries no patch. The
texts `true`, `false` parse as booleans and `yes` does not. -/
theorem Handle_annotation_gate {Q : Type} (lib : QuantityLib Q) (store : MetricsStore)
    (a : podWebhook) (pod : Pod Q) :
    ( podWebhook.Annotation a = true → pod.Annotations.lookup PodAnnotation = none →
      ∃ reason, Handle lib store a (.ok pod) = some (.Allowed reason)) ∧
    ( podWebhook.Annotation a = true → ∀ value, pod.Annotations.lookup PodAnnotation = some value →
      ParseBool value = some false →
      ∃ reason, Handle lib store a (.ok pod) = some (.Allowed reason)) ∧
    ( podWebhook.Annotation a = true → ∀ value, pod.Annotations.lookup PodAnnotation = some value →
      ParseBool value = none →
      ∃ err, Handle lib store a (.ok pod) = some (.Errored 400 err)) ∧
    (annotationGate a pod = .proceed ↔
      ( podWebhook.Annotation a = false ∨
        ∃ value, pod.Annotations.lookup PodAnnotation = some value ∧
          ParseBool value = some true)) ∧
    (annotationGate a pod = .proceed →
      Handle lib store a (.ok pod) = resizePod lib store pod) ∧
    (annotationGate a pod ≠ .proceed →
      ∃ r, Handle lib store a (.ok pod) = some r ∧ ∀ p, r ≠ .Patched p) ∧
    ParseBool "true" = some true ∧ ParseBool "false" = some false ∧ ParseBool "yes" = none := by
  refine ⟨?_, ?_, ?_, annotationGate_proceed_iff a pod, ?_, ?_, by decide, by decide, by decide⟩
  · intro ha hl
    simp [Handle, annotationGate, ha, hl]
  · intro ha value hl hp
    simp [Handle, annotationGate, ha, hl, hp]
  · intro ha value hl hp
    simp [Handle, annotationGate, ha, hl, hp]
  · intro hg
    simp [Handle, hg]
  · intro hg
    unfold Handle
    simp only []
    unfold annotationGate at hg ⊢
    cases ha : podWebhook.Annotation a with
    | false => simp [ha] at hg
    | true =>
      cases hl : pod.Annotations.lookup PodAnnotation with
      | none => simp
      | some value =>
        cases hp : ParseBool value with
        | none => simp [hp]
        | some parsed =>
          cases parsed with
          | false => simp [hp]
          | true => simp [ha, hl, hp] at hg

/-- C8 (witness): gate enabled and the annotation set to `false`. -/
theorem Handle_annotation_gate_witness :
    ∃ reason,
      Handle textQuantities (vectorStore []) { Annotation := true }
          (.ok { Name := "web-6f7d9c9fb6-x2kvp", Namespace := "default",
                 Annotations := [( PodAnnotation, "false")],
                 OwnerReferences := [⟨"ReplicaSet", "web-6f7d9c9fb6"⟩],
                 Containers := [{ Name := "web", Resources := { Requests := [], Limits := [] } }] })
        = some (.Allowed reason) :=
  (Handle_annotation_gate textQuantities (vectorStore []) { Annotation := true }
    { Name := "web-6f7d9c9fb6-x2kvp", Namespace := "default",
      Annotations := [( PodAnnotation, "false")],
      OwnerReferences := [⟨"ReplicaSet", "web-6f7d9c9fb6"⟩],
      Containers := [{ Name := "web", Resources := { Requests := [], Limits := [] } }] }).2.1
    rfl "false" (by decide) (by decide)

/-! ## `QueryBuilder` -/

/-- C9: for every record, after `QueryBuilder` each of the four queries contains the pod
selector `pod=~"n-.+"` for the record's name `n`, the two CPU queries end with `* 1000` and
the two memory queries end with `/ 1000000`; the four texts are those built from the name
alone, and the name and the four maps are left as they were. For `n = "web"` the base CPU
query is the text shown, which contains `pod=~"web-.+"` and `1000`. -/
theorem QueryBuilder_spec (resAlloc : ResourceAllocables) :
    ((∃ pre post, (QueryBuilder resAlloc).BaseCPUQuery
        = pre ++ ("pod=~\"" ++ resAlloc.Name ++ "-.+\"") ++ post) ∧
     (∃ pre post, (QueryBuilder resAlloc).BaseMemQuery
        = pre ++ ("pod=~\"" ++ resAlloc.Name ++ "-.+\"") ++ post) ∧
     (∃ pre post, (QueryBuilder resAlloc).PeakCPUQuery
        = pre ++ ("pod=~\"" ++ resAlloc.Name ++ "-.+\"") ++ post) ∧
     (∃ pre post, (QueryBuilder resAlloc).PeakMemQuery
        = pre ++ ("pod=~\"" ++ resAlloc.Name ++ "-.+\"") ++ post)) ∧
    ((∃ pre, (QueryBuilder resAlloc).BaseCPUQuery = pre ++ "* 1000") ∧
     (∃ pre, (QueryBuilder resAlloc).PeakCPUQuery = pre ++ "* 1000") ∧
     (∃ pre, (QueryBuilder resAlloc).BaseMemQuery = pre ++ "/ 1000000") ∧
     (∃ pre, (QueryBuilder resAlloc).PeakMemQuery = pre ++ "/ 1000000")) ∧
    ((QueryBuilder resAlloc).BaseCPUQuery = (QueryBuilder { Name := resAlloc.Name }).BaseCPUQuery ∧
     (QueryBuilder resAlloc).BaseMemQuery = (QueryBuilder { Name := resAlloc.Name }).BaseMemQuery ∧
     (QueryBuilder resAlloc).PeakCPUQuery = (QueryBuilder { Name := resAlloc.Name }).PeakCPUQuery ∧
     (QueryBuilder resAlloc).PeakMemQuery = (QueryBuilder { Name := resAlloc.Name }).PeakMemQuery) ∧
    ((QueryBuilder resAlloc).Name = resAlloc.Name ∧
     (QueryBuilder resAlloc).AvgCpu = resAlloc.AvgCpu ∧
     (QueryBuilder resAlloc).AvgMem = resAlloc.AvgMem ∧
     (QueryBuilder resAlloc).PeakCPU = resAlloc.PeakCPU ∧
     (QueryBuilder resAlloc).PeakMem = resAlloc.PeakMem) ∧
    (QueryBuilder { Name := "web" }).BaseCPUQuery
      = "sum(rate(container_cpu_usage_seconds_total\x7b" ++ "pod=~\"web-.+\"" ++
        "\x7d[7d])) by (pod, container) * " ++ "1000" := by
  have e1 : "sum(rate(container_cpu_usage_seconds_total\x7bpod=~\""
      = "sum(rate(container_cpu_usage_seconds_total\x7b" ++ "pod=~\"" := by decide
  have e2 : "avg(container_memory_working_set_bytes\x7bpod=~\""
      = "avg(container_memory_working_set_bytes\x7b" ++ "pod=~\"" := by decide
  have e3 : "max_over_time(rate(container_cpu_usage_seconds_total\x7bpod=~\""
      = "max_over_time(rate(container_cpu_usage_seconds_total\x7b" ++ "pod=~\"" := by decide
  have e4 : "max_over_time(container_memory_working_set_bytes\x7bpod=~\""
      = "max_over_time(container_memory_working_set_bytes\x7b" ++ "pod=~\"" := by decide
  have s1 : "-.+\"\x7d[7d])) by (pod, container) * 1000"
      = "-.+\"" ++ "\x7d[7d])) by (pod, container) * 1000" := by decide
  have s2 : "-.+\"\x7d) by (pod, container) / 1000000"
      = "-.+\"" ++ "\x7d) by (pod, container) / 1000000" := by decide
  have s3 : "-.+\"\x7d[1m])[168h:1m]) * 1000" = "-.+\"" ++ "\x7d[1m])[168h:1m]) * 1000" := by decide
  have s4 : "-.+\"\x7d[7d]) / 1000000" = "-.+\"" ++ "\x7d[7d]) / 1000000" := by decide
  refine ⟨⟨?_, ?_, ?_, ?_⟩, ⟨?_, ?_, ?_, ?_⟩, ⟨rfl, rfl, rfl, rfl⟩, ⟨rfl, rfl, rfl, rfl, rfl⟩,
    by decide⟩
  · exact ⟨"sum(rate(container_cpu_usage_seconds_total\x7b",
      "\x7d[7d])) by (pod, container) * 1000", by
      simp only [QueryBuilder]
      rw [e1, s1]
      simp only [String.append_assoc]⟩
  · exact ⟨"avg(container_memory_working_set_bytes\x7b",
      "\x7d) by (pod, container) / 1000000", by
      simp only [QueryBuilder]
      rw [e2, s2]
      simp only [String.append_assoc]⟩
  · exact ⟨"max_over_time(rate(container_cpu_usage_seconds_total\x7b",
      "\x7d[1m])[168h:1m]) * 1000", by
      simp only [QueryBuilder]
      rw [e3, s3]
      simp only [String.append_assoc]⟩
  · exact ⟨"max_over_time(container_memory_working_set_bytes\x7b",
      "\x7d[7d]) / 1000000", by
      simp only [QueryBuilder]
      rw [e4, s4]
      simp only [String.append_assoc]⟩
  · exact ⟨"sum(rate(container_cpu_usage_seconds_total\x7bpod=~\"" ++ resAlloc.Name ++
      "-.+\"\x7d[7d])) by (pod, container) ", by simp [QueryBuilder, String.append_assoc]⟩
  · exact ⟨"max_over_time(rate(container_cpu_usage_seconds_total\x7bpod=~\"" ++ resAlloc.Name ++
      "-.+\"\x7d[1m])[168h:1m]) ", by simp [QueryBuilder, String.append_assoc]⟩
  · exact ⟨"avg(container_memory_working_set_bytes\x7bpod=~\"" ++ resAlloc.Name ++
      "-.+\"\x7d) by (pod, container) ", by simp [QueryBuilder, String.append_assoc]⟩
  · exact ⟨"max_over_time(container_memory_working_set_bytes\x7bpod=~\"" ++ resAlloc.Name ++
      "-.+\"\x7d[7d]) ", by simp [QueryBuilder, String.append_assoc]⟩

/-! ## The owner reference -/

/-- C10: for every pod that passes the annotation check, the access to the first owner
reference succeeds (a controller name is produced) if and only if the list of owner
references is not empty; with no owner reference `Handle` ends in the panic of the index
`[0]` and returns no admission response. -/
theorem Handle_owner_reference {Q : Type} (lib : QuantityLib Q) (store : MetricsStore)
    (a : podWebhook) (pod : Pod Q) (hgate : annotationGate a pod = .proceed) :
    ((∃ controllerName, resolveController pod.OwnerReferences = some controllerName) ↔
      pod.OwnerReferences ≠ []) ∧
    (pod.OwnerReferences = [] → Handle lib store a (.ok pod) = none) := by
  constructor
  · cases h : pod.OwnerReferences with
    | nil => simp [resolveController]
    | cons owner rest =>
      simp only [resolveController, List.get?_cons_zero, ne_eq, reduceCtorEq, not_false_eq_true,
        iff_true]
      split_ifs <;> exact ⟨_, rfl⟩
  · intro h
    simp [Handle, hgate, resizePod, h, resolveController]

/-- C10 (witness): gate disabled and a pod without owner references. -/
theorem Handle_owner_reference_witness :
    Handle textQuantities (vectorStore []) { Annotation := false }
        (.ok { Name := "orphan", Namespace := "default", Annotations := [],
               OwnerReferences := [],
               Containers := [{ Name := "web", Resources := { Requests := [], Limits := [] } }] })
      = none :=
  (Handle_owner_reference textQuantities (vectorStore []) { Annotation := false }
    { Name := "orphan", Namespace := "default", Annotations := [], OwnerReferences := [],
      Containers := [{ Name := "web", Resources := { Requests := [], Limits := [] } }] }
    rfl).2 rfl


/-! ## Printed samples never make `SplitKeysWithContainerName` panic -/

theorem splitChars_ne_nil (sep : Char) (l : List Char) : splitChars sep l ≠ [] := by
  induction l with
  | nil => simp [splitChars]
  | cons c cs ih =>
    unfold splitChars
    split_ifs
    · simp
    · split <;> simp

theorem splitChars_first_piece (P R : List Char) (hc : ',' ∉ P) (he : '=' ∈ P) :
    ∃ piece rest, splitChars ',' (P ++ R) = piece :: rest ∧ '=' ∈ piece := by
  induction P with
  | nil => cases he
  | cons c P0 ih =>
    have hc0 : c ≠ ',' := fun e => hc (e ▸ List.mem_cons_self _ _)
    have hc1 : ',' ∉ P0 := fun h => hc (List.mem_cons_of_mem _ h)
    rw [List.cons_append, splitChars, if_neg hc0]
    rcases List.mem_cons.mp he with h | h
    · cases hs : splitChars ',' (P0 ++ R) with
      | nil => exact ⟨[c], [], rfl, h ▸ List.mem_cons_self _ _⟩
      | cons piece rest => exact ⟨c :: piece, rest, rfl, h ▸ List.mem_cons_self _ _⟩
    · obtain ⟨piece, rest, hs, hp⟩ := ih hc1 h
      rw [hs]
      exact ⟨c :: piece, rest, rfl, List.mem_cons_of_mem _ hp⟩

theorem splitChars_second_piece (piece : List Char) (he : '=' ∈ piece) :
    ∃ x, (splitChars '=' piece).get? 1 = some x := by
  induction piece with
  | nil => cases he
  | cons c cs ih =>
    unfold splitChars
    by_cases hc : c = '='
    · rw [if_pos hc]
      cases hs : splitChars '=' cs with
      | nil => exact absurd hs (splitChars_ne_nil _ _)
      | cons a b => exact ⟨a, rfl⟩
    · rw [if_neg hc]
      have he2 : '=' ∈ cs := by
        rcases List.mem_cons.mp he with h | h
        · exact absurd h.symm hc
        · exact h
      obtain ⟨x, hx⟩ := ih he2
      cases hs : splitChars '=' cs with
      | nil => exact absurd hs (splitChars_ne_nil _ _)
      | cons a b =>
        rw [hs] at hx
        exact ⟨x, by simpa using hx⟩

theorem SplitKeysWithContainerName_no_panic (key : String) (P R : List Char)
    (hk : key.toList = P ++ R) (hc : ',' ∉ P) (he : '=' ∈ P) :
    ∃ name, SplitKeysWithContainerName key = some name := by
  obtain ⟨piece, rest, hs, hp⟩ := splitChars_first_piece P R hc he
  obtain ⟨x, hx⟩ := splitChars_second_piece piece hp
  unfold SplitKeysWithContainerName
  simp only [hk, hs, List.headD_cons]
  split_ifs
  · rw [hx]
    exact ⟨_, rfl⟩
  · exact ⟨_, rfl⟩

theorem intercalate_go_prefix (acc sep : String) (l : List String) :
    ∃ t, String.intercalate.go acc sep l = acc ++ t := by
  induction l generalizing acc with
  | nil => exact ⟨"", by simp [String.intercalate.go]⟩
  | cons a as ih =>
    obtain ⟨t, ht⟩ := ih (acc ++ sep ++ a)
    refine ⟨sep ++ a ++ t, ?_⟩
    rw [String.intercalate.go, ht]
    simp only [String.append_assoc]

theorem insertionSort_head_mem {α : Type} (r : α → α → Prop) [DecidableRel r] (x : α)
    (xs : List α) : ∃ f more, (x :: xs).insertionSort r = f :: more ∧ f ∈ x :: xs := by
  have hp := List.perm_insertionSort r (x :: xs)
  cases hs : (x :: xs).insertionSort r with
  | nil =>
    rw [hs] at hp
    exact absurd hp.length_eq (by simp)
  | cons f more =>
    rw [hs] at hp
    exact ⟨f, more, rfl, hp.mem_iff.mp (List.mem_cons_self _ _)⟩


theorem mem_of_lookup (k v : String) (m : List (String × String)) (h : m.lookup k = some v) :
    (k, v) ∈ m := by
  induction m with
  | nil => cases h
  | cons kv rest ih =>
    obtain ⟨k0, v0⟩ := kv
    by_cases hk : k = k0
    · subst hk
      simp [List.lookup] at h
      subst h
      exact List.mem_cons_self _ _
    · have hb : (k == k0) = false := by simpa using hk
      rw [List.lookup, hb] at h
      exact List.mem_cons_of_mem _ (ih h)

theorem metricName_no_comma (s : Sample) (hv : validSample s) :
    ',' ∉ ((s.Metric.lookup "__name__").getD "").toList := by
  cases hl : s.Metric.lookup "__name__" with
  | none => simp
  | some v => exact (hv _ (mem_of_lookup _ _ _ hl)).2 rfl

theorem sampleString_prefix (s : Sample) (hv : validSample s) :
    ∃ P R, (sampleString s).toList = P ++ R ∧ ',' ∉ P ∧ '=' ∈ P := by
  have hname := metricName_no_comma s hv
  unfold sampleString metricString
  simp only []
  cases hls : (s.Metric.filter (fun l => l.1 ≠ "__name__")).map labelString with
  | nil =>
    simp only []
    split_ifs
    · refine ⟨((s.Metric.lookup "__name__").getD "").toList ++ [' ', '='],
        '>' :: ' ' :: (s.Value ++ " @[" ++ s.Timestamp ++ "]").toList, ?_, ?_, by simp⟩
      · simp [String.toList, String.data_append]
      · simpa using hname
    · refine ⟨['{', '}', ' ', '='],
        '>' :: ' ' :: (s.Value ++ " @[" ++ s.Timestamp ++ "]").toList, ?_, by decide, by decide⟩
      simp [String.toList, String.data_append]
  | cons ls0 lsr =>
    simp only []
    obtain ⟨f, more, hsort, hf⟩ :=
      insertionSort_head_mem (fun a b : String => charsLE a.toList b.toList) ls0 lsr
    rw [← hls] at hf
    obtain ⟨l, hl, rfl⟩ := List.mem_map.mp hf
    have hlm : l ∈ s.Metric := (List.mem_filter.mp hl).1
    obtain ⟨t, ht⟩ := intercalate_go_prefix (labelString l) ", " more
    rw [hsort, String.intercalate, ht]
    refine ⟨((s.Metric.lookup "__name__").getD "").toList ++ '{' :: l.1.toList ++ ['='],
      (String.mk ('"' :: quoteChars l.2.toList ++ ['"']) ++ t ++ "\x7d" ++ " => " ++ s.Value ++
        " @[" ++ s.Timestamp ++ "]").toList, ?_, ?_, by simp⟩
    · simp [String.toList, String.data_append, labelString]
    · have h1 := (hv l hlm).1
      simp only [List.append_assoc, List.cons_append, List.mem_append, List.mem_cons,
        List.mem_singleton, not_or]
      refine ⟨hname, by decide, h1, ?_⟩
      simp

theorem sampleString_no_panic (s : Sample) (hv : validSample s) :
    ∃ name, SplitKeysWithContainerName (sampleString s) = some name := by
  obtain ⟨P, R, hk, hc, he⟩ := sampleString_prefix s hv
  exact SplitKeysWithContainerName_no_panic _ P R hk hc he


/-! ## The reduction returns -/

theorem appendAllocation_nonempty (name : String) (v : ℚ) (groups : List (String × List ℚ))
    (h : ∀ g ∈ groups, g.2 ≠ []) : ∀ g ∈ appendAllocation name v groups, g.2 ≠ [] := by
  induction groups with
  | nil =>
    intro g hg
    simp only [appendAllocation, List.mem_singleton] at hg
    subst hg
    simp
  | cons kv rest ih =>
    obtain ⟨key, vs⟩ := kv
    intro g hg
    unfold appendAllocation at hg
    split_ifs at hg
    · rcases List.mem_cons.mp hg with e | e
      · subst e
        simp
      · exact h g (List.mem_cons_of_mem _ e)
    · rcases List.mem_cons.mp hg with e | e
      · subst e
        exact h _ (List.mem_cons_self _ _)
      · exact ih (fun x hx => h x (List.mem_cons_of_mem _ hx)) g e

theorem collectAllocations_done (store : MetricsStore) (r : List Sample)
    (groups : List (String × List ℚ)) (hv : ∀ s ∈ r, validSample s)
    (hp : ∀ s ∈ r, store.ParseFloat s.Value ≠ none) (hg : ∀ g ∈ groups, g.2 ≠ []) :
    ∃ out, collectAllocations store r groups = .done out ∧ ∀ g ∈ out, g.2 ≠ [] := by
  induction r generalizing groups with
  | nil => exact ⟨groups, rfl, hg⟩
  | cons s rest ih =>
    have hv2 : ∀ x ∈ rest, validSample x := fun x hx => hv x (List.mem_cons_of_mem _ hx)
    have hp2 : ∀ x ∈ rest, store.ParseFloat x.Value ≠ none :=
      fun x hx => hp x (List.mem_cons_of_mem _ hx)
    obtain ⟨v, hvv⟩ := Option.ne_none_iff_exists'.mp (hp s (List.mem_cons_self _ _))
    obtain ⟨name, hn⟩ := sampleString_no_panic s (hv s (List.mem_cons_self _ _))
    unfold collectAllocations
    simp only [hvv, hn]
    split_ifs
    · exact ih _ hv2 hp2 (appendAllocation_nonempty name v groups hg)
    · exact ih _ hv2 hp2 hg

theorem collectAllocations_failed (store : MetricsStore) (r : List Sample)
    (groups : List (String × List ℚ)) (hv : ∀ s ∈ r, validSample s)
    (hp : ∃ s ∈ r, store.ParseFloat s.Value = none) :
    ∃ err, collectAllocations store r groups = .failed err := by
  induction r generalizing groups with
  | nil =>
    obtain ⟨s, hs, _⟩ := hp
    cases hs
  | cons s rest ih =>
    have hv2 : ∀ x ∈ rest, validSample x := fun x hx => hv x (List.mem_cons_of_mem _ hx)
    unfold collectAllocations
    cases hvv : store.ParseFloat s.Value with
    | none => exact ⟨_, rfl⟩
    | some v =>
      have hp2 : ∃ x ∈ rest, store.ParseFloat x.Value = none := by
        obtain ⟨x, hx, hxn⟩ := hp
        rcases List.mem_cons.mp hx with e | e
        · subst e
          rw [hvv] at hxn
          cases hxn
        · exact ⟨x, e, hxn⟩
      obtain ⟨name, hn⟩ := sampleString_no_panic s (hv s (List.mem_cons_self _ _))
      simp only [hn]
      split_ifs
      · exact ih _ hv2 hp2
      · exact ih _ hv2 hp2

theorem assignAllocations_some (groups : List (String × List ℚ))
    (hg : ∀ g ∈ groups, g.2 ≠ []) : ∃ m, assignAllocations groups = some m := by
  induction groups with
  | nil => exact ⟨[], rfl⟩
  | cons kv rest ih =>
    obtain ⟨key, vs⟩ := kv
    obtain ⟨m, hm⟩ := ih (fun x hx => hg x (List.mem_cons_of_mem _ hx))
    have hne : vs ≠ [] := hg (key, vs) (List.mem_cons_self _ _)
    obtain ⟨x, xs, rfl⟩ := List.exists_cons_of_ne_nil hne
    obtain ⟨f, more, hsort, _⟩ := insertionSort_head_mem (fun a b : ℚ => a ≤ b) x xs
    have hl : ∃ last, ((x :: xs).insertionSort (fun a b : ℚ => a ≤ b)).getLast? = some last := by
      rw [hsort, List.getLast?_cons]
      exact ⟨_, rfl⟩
    obtain ⟨last, hlast⟩ := hl
    unfold assignAllocations
    rw [hlast, hm]
    exact ⟨_, rfl⟩

theorem queryAllocations_cases (store : MetricsStore) (hv : validStore store)
    (q typeError : String) :
    (queryFails store q ∧ ∃ err, queryAllocations store q typeError = .failed err) ∨
    (¬ queryFails store q ∧ ∃ m, queryAllocations store q typeError = .done m) := by
  unfold queryAllocations queryFails
  cases hq : store.Query q with
  | error err => exact Or.inl ⟨Or.inl ⟨err, rfl⟩, err, rfl⟩
  | ok value =>
    cases value with
    | other => exact Or.inl ⟨Or.inr (Or.inl rfl), typeError, rfl⟩
    | vector r =>
      have hvr := hv q r hq
      by_cases hp : ∃ s ∈ r, store.ParseFloat s.Value = none
      · obtain ⟨err, he⟩ := collectAllocations_failed store r [] hvr hp
        left
        refine ⟨Or.inr (Or.inr ⟨r, rfl, hp⟩), err, ?_⟩
        simp only [he]
      · have hp2 : ∀ s ∈ r, store.ParseFloat s.Value ≠ none := by
          intro s hs hn
          exact hp ⟨s, hs, hn⟩
        obtain ⟨out, ho, hg⟩ := collectAllocations_done store r [] hvr hp2 (by simp)
        obtain ⟨m, hm⟩ := assignAllocations_some out hg
        right
        refine ⟨?_, m, ?_⟩
        · rintro (⟨err, he⟩ | he | ⟨r2, hr2, hf⟩)
          · cases he
          · cases he
          · simp only [Except.ok.injEq, QueryValue.vector.injEq] at hr2
            subst hr2
            exact hp hf
        · simp only [ho, hm]


theorem collectAllocations_congr (store store2 : MetricsStore)
    (hpf : store2.ParseFloat = store.ParseFloat) (r : List Sample)
    (groups : List (String × List ℚ)) :
    collectAllocations store2 r groups = collectAllocations store r groups := by
  induction r generalizing groups with
  | nil => rfl
  | cons s rest ih =>
    unfold collectAllocations
    rw [hpf]
    cases store.ParseFloat s.Value with
    | none => rfl
    | some v =>
      cases SplitKeysWithContainerName (sampleString s) with
      | none => rfl
      | some name =>
        simp only []
        split_ifs
        · exact ih _
        · exact ih _

theorem queryAllocations_congr (store store2 : MetricsStore)
    (hpf : store2.ParseFloat = store.ParseFloat) (q typeError : String)
    (hq : store2.Query q = store.Query q) :
    queryAllocations store2 q typeError = queryAllocations store q typeError := by
  unfold queryAllocations
  rw [hq]
  cases store.Query q with
  | error err => rfl
  | ok value =>
    cases value with
    | other => rfl
    | vector r =>
      simp only []
      rw [collectAllocations_congr store store2 hpf]

theorem Propagate_shape (store : MetricsStore) (hv : validStore store) (app : String) :
    ∃ rec, Propagate store app = some rec ∧
      (rec.AvgCpu, rec.PeakCPU) =
        bothOrNil
          (queryAllocations store (QueryBuilder { Name := app }).BaseCPUQuery
            "type not implemented")
          (queryAllocations store (QueryBuilder { Name := app }).PeakCPUQuery
            "metric type not implemented") ∧
      (rec.AvgMem, rec.PeakMem) =
        bothOrNil
          (queryAllocations store (QueryBuilder { Name := app }).BaseMemQuery
            "type not implemented")
          (queryAllocations store (QueryBuilder { Name := app }).PeakMemQuery
            "metric type not implemented") := by
  rcases queryAllocations_cases store hv (QueryBuilder { Name := app }).BaseCPUQuery
    "type not implemented" with ⟨_, e1, h1⟩ | ⟨_, m1, h1⟩ <;>
  rcases queryAllocations_cases store hv (QueryBuilder { Name := app }).PeakCPUQuery
    "metric type not implemented" with ⟨_, e2, h2⟩ | ⟨_, m2, h2⟩ <;>
  rcases queryAllocations_cases store hv (QueryBuilder { Name := app }).BaseMemQuery
    "type not implemented" with ⟨_, e3, h3⟩ | ⟨_, m3, h3⟩ <;>
  rcases queryAllocations_cases store hv (QueryBuilder { Name := app }).PeakMemQuery
    "metric type not implemented" with ⟨_, e4, h4⟩ | ⟨_, m4, h4⟩ <;>
  · simp only [QueryBuilder] at h1 h2 h3 h4
    simp only [Propagate, AssignCPUAllocations, AssignMemoryAllocations, QueryBuilder, h1, h2,
      h3, h4, bothOrNil]
    exact ⟨_, rfl, rfl, rfl⟩


theorem bothOrNil_failed_left (err : String) (peak : Collected (List (String × ℚ))) :
    bothOrNil (.failed err) peak = (none, none) := rfl

theorem bothOrNil_failed_right (base : Collected (List (String × ℚ))) (err : String) :
    bothOrNil base (.failed err) = (none, none) := by
  cases base <;> rfl

theorem bothOrNil_of_fails (store : MetricsStore) (hv : validStore store)
    (q1 q2 t1 t2 : String) (h : queryFails store q1 ∨ queryFails store q2) :
    bothOrNil (queryAllocations store q1 t1) (queryAllocations store q2 t2) = (none, none) := by
  rcases h with h | h
  · rcases queryAllocations_cases store hv q1 t1 with ⟨_, e, he⟩ | ⟨hn, _⟩
    · rw [he, bothOrNil_failed_left]
    · exact absurd h hn
  · rcases queryAllocations_cases store hv q2 t2 with ⟨_, e, he⟩ | ⟨hn, _⟩
    · rw [he, bothOrNil_failed_right]
    · exact absurd h hn

/-- The fail-open rule of `Propagate` on the stores whose samples carry names of the
Prometheus data model (no comma in a metric or label name): `Propagate` returns a record, and
in that record: if either CPU query fails (store error, a result that is not an instant
vector, or a sample value that does not parse) both `AvgCpu` and `PeakCPU` are `nil`; if
either memory query fails both `AvgMem` and `PeakMem` are `nil`; `AvgMem` and `PeakMem` are
the same for every other store that answers the two memory queries alike, whatever its CPU
queries do, and `AvgCpu` and `PeakCPU` are the same for every other store that answers the
two CPU queries alike. -/
theorem Propagate_fail_open (store : MetricsStore) (hv : validStore store) (app : String) :
    ∃ rec, Propagate store app = some rec ∧
      ((queryFails store (QueryBuilder { Name := app }).BaseCPUQuery ∨
          queryFails store (QueryBuilder { Name := app }).PeakCPUQuery) →
        rec.AvgCpu = none ∧ rec.PeakCPU = none) ∧
      ((queryFails store (QueryBuilder { Name := app }).BaseMemQuery ∨
          queryFails store (QueryBuilder { Name := app }).PeakMemQuery) →
        rec.AvgMem = none ∧ rec.PeakMem = none) ∧
      (∀ store2 : MetricsStore, validStore store2 → store2.ParseFloat = store.ParseFloat →
        store2.Query (QueryBuilder { Name := app }).BaseMemQuery
          = store.Query (QueryBuilder { Name := app }).BaseMemQuery →
        store2.Query (QueryBuilder { Name := app }).PeakMemQuery
          = store.Query (QueryBuilder { Name := app }).PeakMemQuery →
        ∃ rec2, Propagate store2 app = some rec2 ∧
          rec2.AvgMem = rec.AvgMem ∧ rec2.PeakMem = rec.PeakMem) ∧
      (∀ store2 : MetricsStore, validStore store2 → store2.ParseFloat = store.ParseFloat →
        store2.Query (QueryBuilder { Name := app }).BaseCPUQuery
          = store.Query (QueryBuilder { Name := app }).BaseCPUQuery →
        store2.Query (QueryBuilder { Name := app }).PeakCPUQuery
          = store.Query (QueryBuilder { Name := app }).PeakCPUQuery →
        ∃ rec2, Propagate store2 app = some rec2 ∧
          rec2.AvgCpu = rec.AvgCpu ∧ rec2.PeakCPU = rec.PeakCPU) := by
  obtain ⟨rec, hrec, hcpu, hmem⟩ := Propagate_shape store hv app
  refine ⟨rec, hrec, ?_, ?_, ?_, ?_⟩
  · intro h
    rw [bothOrNil_of_fails store hv _ _ _ _ h] at hcpu
    exact ⟨congrArg Prod.fst hcpu, congrArg Prod.snd hcpu⟩
  · intro h
    rw [bothOrNil_of_fails store hv _ _ _ _ h] at hmem
    exact ⟨congrArg Prod.fst hmem, congrArg Prod.snd hmem⟩
  · intro store2 hv2 hpf hb hp
    obtain ⟨rec2, hrec2, _, hmem2⟩ := Propagate_shape store2 hv2 app
    rw [queryAllocations_congr store store2 hpf _ _ hb,
      queryAllocations_congr store store2 hpf _ _ hp, ← hmem] at hmem2
    exact ⟨rec2, hrec2, congrArg Prod.fst hmem2, congrArg Prod.snd hmem2⟩
  · intro store2 hv2 hpf hb hp
    obtain ⟨rec2, hrec2, hcpu2, _⟩ := Propagate_shape store2 hv2 app
    rw [queryAllocations_congr store store2 hpf _ _ hb,
      queryAllocations_congr store store2 hpf _ _ hp, ← hcpu] at hcpu2
    exact ⟨rec2, hrec2, congrArg Prod.fst hcpu2, congrArg Prod.snd hcpu2⟩

theorem cpuDownStore_valid : validStore cpuDownStore := by
  intro q r hq s hs
  unfold cpuDownStore at hq
  simp only at hq
  split_ifs at hq
  simp only [Except.ok.injEq, QueryValue.vector.injEq] at hq
  subst hq
  simp only [List.mem_singleton] at hs
  subst hs
  unfold validSample
  decide

/-- The fail-open rule at a concrete store: with the base CPU query failing and the other
three answered, the record has both CPU maps `nil` and both memory maps `{web: 150}`. -/
theorem Propagate_fail_open_witness :
    ∃ rec, Propagate cpuDownStore "web" = some rec ∧
      (rec.AvgCpu = none ∧ rec.PeakCPU = none) ∧
      rec.AvgMem = some [("web", 150)] ∧ rec.PeakMem = some [("web", 150)] := by
  obtain ⟨rec, hrec, hcpu, _⟩ := Propagate_fail_open cpuDownStore cpuDownStore_valid "web"
  refine ⟨rec, hrec, hcpu (Or.inl (Or.inl ⟨"connection refused", by simp [cpuDownStore]⟩)), ?_⟩
  have hd : (Propagate cpuDownStore "web").map (fun r => (r.AvgMem, r.PeakMem))
      = some (some [("web", 150)], some [("web", 150)]) := by decide
  rw [hrec] at hd
  simp only [Option.map_some', Option.some.injEq, Prod.mk.injEq] at hd
  exact hd

/-! ## `GetMainControllerName` on names without `%` -/

theorem splitChars_of_not_mem (sep : Char) (t : List Char) (h : sep ∉ t) :
    splitChars sep t = [t] := by
  induction t with
  | nil => rfl
  | cons c cs ih =>
    have hc : c ≠ sep := fun e => h (e ▸ List.mem_cons_self _ _)
    rw [splitChars, if_neg hc, ih (fun hm => h (List.mem_cons_of_mem _ hm))]

theorem splitChars_append_sep (sep : Char) (s t : List Char) (h : sep ∉ t) :
    splitChars sep (s ++ sep :: t) = splitChars sep s ++ [t] := by
  induction s with
  | nil =>
    rw [List.nil_append]
    show splitChars sep (sep :: t) = [[], t]
    rw [splitChars, if_pos rfl, splitChars_of_not_mem sep t h]
  | cons c cs ih =>
    rw [List.cons_append, splitChars, splitChars]
    by_cases hc : c = sep
    · rw [if_pos hc, if_pos hc, ih, List.cons_append]
    · rw [if_neg hc, if_neg hc, ih]
      cases hs : splitChars sep cs with
      | nil => exact absurd hs (splitChars_ne_nil _ _)
      | cons piece rest => rfl

theorem joinChars_splitChars (sep : Char) (s : List Char) :
    joinChars sep (splitChars sep s) = s := by
  induction s with
  | nil => rfl
  | cons c cs ih =>
    rw [splitChars]
    by_cases hc : c = sep
    · rw [if_pos hc]
      cases hs : splitChars sep cs with
      | nil => exact absurd hs (splitChars_ne_nil _ _)
      | cons piece rest =>
        rw [hs] at ih
        show [] ++ sep :: joinChars sep (piece :: rest) = c :: cs
        rw [ih, hc]
        rfl
    · rw [if_neg hc]
      cases hs : splitChars sep cs with
      | nil => exact absurd hs (splitChars_ne_nil _ _)
      | cons piece rest =>
        rw [hs] at ih
        cases rest with
        | nil =>
          simp only [joinChars] at ih ⊢
          rw [ih]
        | cons p2 r2 =>
          simp only [joinChars] at ih ⊢
          rw [← ih]
          rfl

theorem doPrintf_of_no_verb (fuel : Nat) (format : List Char) (h : '%' ∉ format) :
    doPrintf fuel format = format := by
  have ht : format.takeWhile (fun c => c != '%') = format := by
    rw [List.takeWhile_eq_self_iff]
    intro c hc
    simp only [bne_iff_ne, ne_eq]
    exact fun e => h (e ▸ hc)
  have hd : format.dropWhile (fun c => c != '%') = [] := by
    rw [List.dropWhile_eq_nil_iff]
    intro c hc
    simp only [bne_iff_ne, ne_eq]
    exact fun e => h (e ▸ hc)
  cases fuel with
  | zero => rw [doPrintf, ht]
  | succ n => rw [doPrintf]; simp only [ht, hd]

theorem GetMainControllerName_strips (s t : String) (hs : '%' ∉ s.toList)
    (ht : '-' ∉ t.toList) : GetMainControllerName (s ++ "-" ++ t) = s := by
  have hl : (s ++ "-" ++ t).toList = s.toList ++ '-' :: t.toList := by
    simp [String.toList, String.data_append]
  unfold GetMainControllerName
  simp only [hl, splitChars_append_sep '-' s.toList t.toList ht]
  have htake : (splitChars '-' s.toList ++ [t.toList]).take
      ((splitChars '-' s.toList ++ [t.toList]).length - 1) = splitChars '-' s.toList := by
    simp
  rw [htake, joinChars_splitChars]
  unfold Sprintf
  show String.mk (doPrintf _ s.toList) = s
  rw [doPrintf_of_no_verb _ _ hs]
  rfl


/-! ## What the reduction computes -/

theorem appendAllocation_keys (name : String) (v : ℚ) (groups : List (String × List ℚ))
    (k : String) :
    k ∈ (appendAllocation name v groups).map Prod.fst ↔ k = name ∨ k ∈ groups.map Prod.fst := by
  induction groups with
  | nil => simp [appendAllocation]
  | cons kv rest ih =>
    obtain ⟨key, vs⟩ := kv
    unfold appendAllocation
    split_ifs with h
    · subst h
      simp
    · simp only [List.map_cons, List.mem_cons, ih]
      tauto

theorem appendAllocation_nodup (name : String) (v : ℚ) (groups : List (String × List ℚ))
    (h : (groups.map Prod.fst).Nodup) : ((appendAllocation name v groups).map Prod.fst).Nodup := by
  induction groups with
  | nil => simp [appendAllocation]
  | cons kv rest ih =>
    obtain ⟨key, vs⟩ := kv
    rw [List.map_cons, List.nodup_cons] at h
    unfold appendAllocation
    split_ifs with hk
    · rw [List.map_cons, List.nodup_cons]
      exact h
    · rw [List.map_cons, List.nodup_cons]
      refine ⟨?_, ih h.2⟩
      rw [appendAllocation_keys]
      rintro (e | e)
      · exact hk e
      · exact h.1 e

theorem appendAllocation_mem (name : String) (v : ℚ) (groups : List (String × List ℚ))
    (hnd : (groups.map Prod.fst).Nodup) (k : String) (vs : List ℚ)
    (h : (k, vs) ∈ appendAllocation name v groups) :
    (k ≠ name ∧ (k, vs) ∈ groups) ∨
    (k = name ∧ ((∃ vs0, (name, vs0) ∈ groups ∧ vs = vs0 ++ [v]) ∨
      (name ∉ groups.map Prod.fst ∧ vs = [v]))) := by
  induction groups with
  | nil =>
    simp only [appendAllocation, List.mem_singleton, Prod.mk.injEq] at h
    exact Or.inr ⟨h.1, Or.inr ⟨by simp, h.2⟩⟩
  | cons kv rest ih =>
    obtain ⟨key, vs1⟩ := kv
    rw [List.map_cons, List.nodup_cons] at hnd
    unfold appendAllocation at h
    split_ifs at h with hk
    · subst hk
      rcases List.mem_cons.mp h with e | e
      · simp only [Prod.mk.injEq] at e
        exact Or.inr ⟨e.1, Or.inl ⟨vs1, List.mem_cons_self _ _, e.2⟩⟩
      · have hkk : k ≠ key := by
          intro hkk
          subst hkk
          have hm := List.mem_map_of_mem Prod.fst e
          exact hnd.1 hm
        exact Or.inl ⟨hkk, List.mem_cons_of_mem _ e⟩
    · rcases List.mem_cons.mp h with e | e
      · simp only [Prod.mk.injEq] at e
        obtain ⟨e1, e2⟩ := e
        subst e1 e2
        exact Or.inl ⟨hk, List.mem_cons_self _ _⟩
      · rcases ih hnd.2 e with ⟨h1, h2⟩ | ⟨h1, h2 | h2⟩
        · exact Or.inl ⟨h1, List.mem_cons_of_mem _ h2⟩
        · obtain ⟨vs0, hm, hv⟩ := h2
          exact Or.inr ⟨h1, Or.inl ⟨vs0, List.mem_cons_of_mem _ hm, hv⟩⟩
        · refine Or.inr ⟨h1, Or.inr ⟨?_, h2.2⟩⟩
          rw [List.map_cons, List.mem_cons, not_or]
          exact ⟨fun e => hk e.symm, h2.1⟩

theorem valuesNamed_append (store : MetricsStore) (pre : List Sample) (s : Sample)
    (name : String) :
    valuesNamed store (pre ++ [s]) name =
      valuesNamed store pre name ++ valuesNamed store [s] name := by
  unfold valuesNamed
  rw [List.filterMap_append]

theorem GroupsOf_step (store : MetricsStore) (pre : List Sample) (s : Sample)
    (groups : List (String × List ℚ)) (v : ℚ) (name : String)
    (hv : store.ParseFloat s.Value = some v)
    (hn : SplitKeysWithContainerName (sampleString s) = some name)
    (hne : name ≠ "") (inv : GroupsOf store pre groups) :
    GroupsOf store (pre ++ [s]) (appendAllocation name v groups) := by
  obtain ⟨hnd, hmem, hkeys⟩ := inv
  have hself : valuesNamed store [s] name = [v] := by
    simp [valuesNamed, hn, hv]
  have hother : ∀ k, k ≠ name → valuesNamed store [s] k = [] := by
    intro k hk
    have : ¬ (some name = some k) := fun e => hk (Option.some.inj e).symm
    simp [valuesNamed, hn, this]
  refine ⟨appendAllocation_nodup name v groups hnd, ?_, ?_⟩
  · intro k vs hkv
    rcases appendAllocation_mem name v groups hnd k vs hkv with ⟨h1, h2⟩ | ⟨h1, h2 | h2⟩
    · obtain ⟨a, b, c⟩ := hmem k vs h2
      refine ⟨a, b, ?_⟩
      rw [valuesNamed_append, hother k h1, List.append_nil]
      exact c
    · obtain ⟨vs0, hm, hvs⟩ := h2
      obtain ⟨a, b, c⟩ := hmem name vs0 hm
      subst h1
      refine ⟨hne, by simp [hvs], ?_⟩
      rw [valuesNamed_append, hself, hvs, c]
    · subst h1
      refine ⟨hne, by simp [h2.2], ?_⟩
      have hnil : valuesNamed store pre k = [] := by
        by_contra hc
        exact h2.1 (hkeys k hne hc)
      rw [valuesNamed_append, hself, hnil, h2.2]
      rfl
  · intro k hk hvals
    rw [appendAllocation_keys]
    by_cases hkn : k = name
    · exact Or.inl hkn
    · right
      apply hkeys k hk
      rw [valuesNamed_append, hother k hkn, List.append_nil] at hvals
      exact hvals

theorem GroupsOf_skip (store : MetricsStore) (pre : List Sample) (s : Sample)
    (groups : List (String × List ℚ))
    (hn : SplitKeysWithContainerName (sampleString s) = some "")
    (inv : GroupsOf store pre groups) : GroupsOf store (pre ++ [s]) groups := by
  obtain ⟨hnd, hmem, hkeys⟩ := inv
  have hother : ∀ k, k ≠ "" → valuesNamed store [s] k = [] := by
    intro k hk
    have : ¬ (some "" = some k) := fun e => hk (Option.some.inj e).symm
    simp [valuesNamed, hn, this]
  refine ⟨hnd, ?_, ?_⟩
  · intro k vs hkv
    obtain ⟨a, b, c⟩ := hmem k vs hkv
    refine ⟨a, b, ?_⟩
    rw [valuesNamed_append, hother k a, List.append_nil]
    exact c
  · intro k hk hvals
    apply hkeys k hk
    rw [valuesNamed_append, hother k hk, List.append_nil] at hvals
    exact hvals

theorem collectAllocations_groups (store : MetricsStore) (rest pre : List Sample)
    (groups out : List (String × List ℚ)) (inv : GroupsOf store pre groups)
    (h : collectAllocations store rest groups = .done out) :
    GroupsOf store (pre ++ rest) out := by
  induction rest generalizing pre groups with
  | nil =>
    simp only [collectAllocations, Collected.done.injEq] at h
    subst h
    simpa using inv
  | cons s rest ih =>
    unfold collectAllocations at h
    cases hv : store.ParseFloat s.Value with
    | none => simp [hv] at h
    | some v =>
      cases hn : SplitKeysWithContainerName (sampleString s) with
      | none => simp [hv, hn] at h
      | some name =>
        simp only [hv, hn] at h
        have hpre : pre ++ s :: rest = (pre ++ [s]) ++ rest := by simp
        rw [hpre]
        split_ifs at h with hne
        · exact ih (pre ++ [s]) _ (GroupsOf_step store pre s groups v name hv hn hne inv) h
        · have he : name = "" := by
            by_contra hc
            exact hne hc
          subst he
          exact ih (pre ++ [s]) _ (GroupsOf_skip store pre s groups hn inv) h


theorem sorted_getLast_max (l : List ℚ) (hs : l.Sorted (fun a b => a ≤ b)) (v : ℚ)
    (h : l.getLast? = some v) : v ∈ l ∧ ∀ w ∈ l, w ≤ v := by
  induction l with
  | nil => cases h
  | cons a rest ih =>
    rw [List.sorted_cons] at hs
    cases rest with
    | nil =>
      simp only [List.getLast?_singleton, Option.some.injEq] at h
      subst h
      simp
    | cons b rest2 =>
      rw [List.getLast?_cons_cons] at h
      obtain ⟨hm, hmax⟩ := ih hs.2 h
      refine ⟨List.mem_cons_of_mem _ hm, ?_⟩
      intro w hw
      rcases List.mem_cons.mp hw with e | e
      · subst e
        exact hs.1 v hm
      · exact hmax w e

theorem insertionSort_getLast_max (vs : List ℚ) (v : ℚ)
    (h : (vs.insertionSort (fun a b => a ≤ b)).getLast? = some v) :
    v ∈ vs ∧ ∀ w ∈ vs, w ≤ v := by
  obtain ⟨hm, hmax⟩ :=
    sorted_getLast_max _ (List.sorted_insertionSort (fun a b : ℚ => a ≤ b) vs) v h
  have hp := List.perm_insertionSort (fun a b : ℚ => a ≤ b) vs
  exact ⟨hp.mem_iff.mp hm, fun w hw => hmax w (hp.mem_iff.mpr hw)⟩

theorem assignAllocations_mem (groups : List (String × List ℚ)) (m : List (String × ℚ))
    (h : assignAllocations groups = some m) :
    m.map Prod.fst = groups.map Prod.fst ∧
    ∀ k v, (k, v) ∈ m ↔
      ∃ vs, (k, vs) ∈ groups ∧ (vs.insertionSort (fun a b => a ≤ b)).getLast? = some v := by
  induction groups generalizing m with
  | nil =>
    simp only [assignAllocations, Option.some.injEq] at h
    subst h
    simp
  | cons kv rest ih =>
    obtain ⟨key, vs1⟩ := kv
    unfold assignAllocations at h
    cases hl : (vs1.insertionSort (fun a b => a ≤ b)).getLast? with
    | none => simp [hl] at h
    | some last =>
      cases hr : assignAllocations rest with
      | none => simp [hl, hr] at h
      | some assigned =>
        simp only [hl, hr, Option.some.injEq] at h
        subst h
        obtain ⟨hk, hm⟩ := ih assigned hr
        refine ⟨by simp [hk], ?_⟩
        intro k v
        simp only [List.mem_cons, Prod.mk.injEq, hm]
        constructor
        · rintro (⟨rfl, rfl⟩ | ⟨vs, hvs, hlast⟩)
          · exact ⟨vs1, Or.inl ⟨rfl, rfl⟩, hl⟩
          · exact ⟨vs, Or.inr hvs, hlast⟩
        · rintro ⟨vs, ⟨rfl, rfl⟩ | hvs, hlast⟩
          · rw [hl] at hlast
            exact Or.inl ⟨rfl, (Option.some.inj hlast).symm⟩
          · exact Or.inr ⟨vs, hvs, hlast⟩

theorem queryAllocations_groups (store : MetricsStore) (q typeError : String)
    (r : List Sample) (hq : store.Query q = .ok (.vector r))
    (hv : ∀ s ∈ r, validSample s) (hp : ∀ s ∈ r, store.ParseFloat s.Value ≠ none) :
    ∃ m, queryAllocations store q typeError = .done m ∧ (m.map Prod.fst).Nodup ∧
      ∀ name v, (name, v) ∈ m ↔
        (name ≠ "" ∧ v ∈ valuesNamed store r name ∧ ∀ w ∈ valuesNamed store r name, w ≤ v) := by
  obtain ⟨out, ho, hg⟩ := collectAllocations_done store r [] hv hp (by simp)
  obtain ⟨m, hm⟩ := assignAllocations_some out hg
  have inv0 : GroupsOf store [] [] := ⟨by simp, by simp, by simp [valuesNamed]⟩
  obtain ⟨hnd, hmem, hkeys⟩ := collectAllocations_groups store r [] [] out inv0 ho
  rw [List.nil_append] at hmem hkeys
  obtain ⟨hk, hmm⟩ := assignAllocations_mem out m hm
  refine ⟨m, ?_, by rw [hk]; exact hnd, ?_⟩
  · unfold queryAllocations
    simp only [hq, ho, hm]
  · intro name v
    rw [hmm]
    constructor
    · rintro ⟨vs, hvs, hlast⟩
      obtain ⟨a, _, c⟩ := hmem name vs hvs
      obtain ⟨h1, h2⟩ := insertionSort_getLast_max vs v hlast
      rw [c] at h1 h2
      exact ⟨a, h1, h2⟩
    · rintro ⟨hne, hin, hmax⟩
      have hnn : valuesNamed store r name ≠ [] := List.ne_nil_of_mem hin
      have hkey := hkeys name hne hnn
      obtain ⟨⟨k, vs⟩, hkv, hfst⟩ := List.mem_map.mp hkey
      simp only at hfst
      subst hfst
      obtain ⟨_, b, c⟩ := hmem k vs hkv
      obtain ⟨x, xs, hx⟩ := List.exists_cons_of_ne_nil b
      obtain ⟨f, more, hsort, _⟩ := insertionSort_head_mem (fun a b : ℚ => a ≤ b) x xs
      have hl : ∃ last, (vs.insertionSort (fun a b : ℚ => a ≤ b)).getLast? = some last := by
        rw [hx, hsort, List.getLast?_cons]
        exact ⟨_, rfl⟩
      obtain ⟨last, hlast⟩ := hl
      obtain ⟨h1, h2⟩ := insertionSort_getLast_max vs last hlast
      rw [c] at h1 h2
      have hvl : v = last := le_antisymm (h2 v hin) (hmax last h1)
      exact ⟨vs, hkv, by rw [hlast, hvl]⟩

/-! ## `SplitKeysWithContainerName` on the label set of the base queries -/

theorem quoteChars_plain (cs : List Char)
    (h : ∀ ch ∈ cs, ch ≠ '"' ∧ ch ≠ '\\' ∧ 32 ≤ ch.toNat ∧ ch.toNat ≠ 127) :
    quoteChars cs = cs := by
  induction cs with
  | nil => rfl
  | cons c rest ih =>
    obtain ⟨h1, h2, h3, h4⟩ := h c (List.mem_cons_self _ _)
    rw [quoteChars, if_neg h1, if_neg h2, if_neg (by omega), if_neg (by omega),
      if_neg (by omega), if_neg (by omega), if_neg (by omega), if_neg (by omega),
      if_neg (by omega), if_neg (by omega), ih (fun x hx => h x (List.mem_cons_of_mem _ hx))]

theorem splitChars_head_of_prefix (sep : Char) (A R : List Char) (h : sep ∉ A) :
    (splitChars sep (A ++ sep :: R)).headD [] = A := by
  induction A with
  | nil => simp [splitChars]
  | cons c cs ih =>
    have hc : c ≠ sep := fun e => h (e ▸ List.mem_cons_self _ _)
    have ih2 := ih (fun hm => h (List.mem_cons_of_mem _ hm))
    rw [List.cons_append, splitChars, if_neg hc]
    cases hs : splitChars sep (cs ++ sep :: R) with
    | nil => exact absurd hs (splitChars_ne_nil _ _)
    | cons piece rest =>
      rw [hs] at ih2
      simp only [List.headD_cons] at ih2 ⊢
      rw [ih2]

theorem trimChar_quoted (cs : List Char) (h : '"' ∉ cs) :
    trimChar '"' ('"' :: cs ++ ['"']) = cs := by
  have hd : ∀ l : List Char, '"' ∉ l → ∀ tail : List Char,
      (l ++ tail).dropWhile (fun x => x == '"') =
        if l = [] then tail.dropWhile (fun x => x == '"') else l ++ tail := by
    intro l hl tail
    cases l with
    | nil => simp
    | cons c rest =>
      have hc : c ≠ '"' := fun e => hl (e ▸ List.mem_cons_self _ _)
      have hb : (c == '"') = false := by simpa using hc
      simp [List.dropWhile, hb]
  unfold trimChar
  have h1 : ('"' :: cs ++ ['"']).dropWhile (fun x => x == '"')
      = (cs ++ ['"']).dropWhile (fun x => x == '"') := by
    simp [List.dropWhile]
  rw [h1, hd cs h]
  by_cases hcs : cs = []
  · subst hcs
    simp [List.dropWhile]
  · rw [if_neg hcs, List.reverse_append]
    have h2 : (['"'].reverse ++ cs.reverse).dropWhile (fun x => x == '"')
        = (cs.reverse ++ []).dropWhile (fun x => x == '"') := by
      simp [List.dropWhile]
    rw [h2, hd cs.reverse (by simpa using h)]
    simp [hcs]


theorem labelString_toList (l : String × String) :
    (labelString l).toList = l.1.toList ++ '=' :: '"' :: quoteChars l.2.toList ++ ['"'] := by
  simp [labelString, String.toList, String.data_append]

theorem metricString_container_pod (c p : String) :
    metricString [("container", c), ("pod", p)]
      = "\x7b" ++ (labelString ("container", c) ++ ", " ++ labelString ("pod", p)) ++ "\x7d" := by
  have hle : charsLE (labelString ("container", c)).toList (labelString ("pod", p)).toList
      = true := by
    rw [labelString_toList, labelString_toList]
    rfl
  have h1 : ("container" == "__name__") = false := by decide
  have h2 : ("pod" == "__name__") = false := by decide
  have h3 : ("__name__" == "container") = false := by decide
  have h4 : ("__name__" == "pod") = false := by decide
  have hf : List.filter (fun l : String × String => decide (l.1 ≠ "__name__"))
      [("container", c), ("pod", p)] = [("container", c), ("pod", p)] := by
    simp [List.filter]
  have hl : List.lookup "__name__" [("container", c), ("pod", p)] = none := by
    simp [List.lookup, h3, h4]
  unfold metricString
  simp only [hf, hl, List.map_cons, List.map_nil, Option.getD_none]
  simp only [List.insertionSort, List.orderedInsert, hle, if_true]
  simp [String.intercalate, String.intercalate.go, String.append_assoc]


theorem containsChars_of_prefix (sub pre rest : List Char) :
    containsChars sub (pre ++ sub ++ rest) = true := by
  induction pre with
  | nil =>
    cases hs : sub ++ rest with
    | nil =>
      obtain ⟨h1, h2⟩ := List.append_eq_nil.mp hs
      subst h1 h2
      rfl
    | cons x xs =>
      rw [List.nil_append, hs, containsChars, ← hs]
      have hp : sub.isPrefixOf (sub ++ rest) = true := by
        rw [List.isPrefixOf_iff_prefix]
        exact List.prefix_append _ _
      simp [hp]
  | cons a pre2 ih =>
    rw [List.cons_append, List.cons_append, containsChars, ih]
    simp

theorem SplitKeysWithContainerName_container_pod (c p v t : String)
    (hc : plainName c) :
    SplitKeysWithContainerName (sampleString ⟨[("container", c), ("pod", p)], v, t⟩)
      = some c := by
  have hq : quoteChars c.toList = c.toList :=
    quoteChars_plain _ (fun ch h => ⟨(hc ch h).2.2.1, (hc ch h).2.2.2.1, (hc ch h).2.2.2.2.1,
      (hc ch h).2.2.2.2.2⟩)
  have hcomma : ',' ∉ c.toList := fun h => (hc _ h).1 rfl
  have heq : '=' ∉ c.toList := fun h => (hc _ h).2.1 rfl
  have hquote : '"' ∉ c.toList := fun h => (hc _ h).2.2.1 rfl
  have hlist : (sampleString ⟨[("container", c), ("pod", p)], v, t⟩).toList
      = ("\x7bcontainer".toList ++ '=' :: ('"' :: c.toList ++ ['"'])) ++
        ',' :: (' ' :: (labelString ("pod", p) ++ "\x7d" ++ " => " ++ v ++ " @[" ++ t ++ "]").toList)
      := by
    unfold sampleString
    simp only []
    rw [metricString_container_pod]
    have hq2 : quoteChars c.data = c.data := hq
    simp [String.toList, String.data_append, labelString, hq2]
  have hA : ',' ∉ "\x7bcontainer".toList ++ '=' :: ('"' :: c.toList ++ ['"']) := by
    have h0 : ',' ∉ "\x7bcontainer".toList := by decide
    intro h
    rcases List.mem_append.mp h with h | h
    · exact h0 h
    · rcases List.mem_cons.mp h with h | h
      · exact absurd h (by decide)
      · rcases List.mem_append.mp h with h | h
        · rcases List.mem_cons.mp h with h | h
          · exact absurd h (by decide)
          · exact hcomma h
        · exact absurd (List.mem_singleton.mp h) (by decide)
  have hT : '=' ∉ '"' :: c.toList ++ ['"'] := by
    intro h
    rcases List.mem_append.mp h with h | h
    · rcases List.mem_cons.mp h with h | h
      · exact absurd h (by decide)
      · exact heq h
    · exact absurd (List.mem_singleton.mp h) (by decide)
  unfold SplitKeysWithContainerName
  simp only [hlist, splitChars_head_of_prefix ',' _ _ hA]
  have hcont : containsChars "container".toList
      ("\x7bcontainer".toList ++ '=' :: ('"' :: c.toList ++ ['"'])) = true := by
    have := containsChars_of_prefix "container".toList ['\x7b']
      ('=' :: ('"' :: c.toList ++ ['"']))
    simpa using this
  rw [if_pos hcont, splitChars_append_sep '=' _ _ hT]
  have hs : splitChars '=' "\x7bcontainer".toList = ["\x7bcontainer".toList] := by decide
  rw [hs]
  simp only [List.singleton_append, List.get?_cons_succ, List.get?_cons_zero]
  rw [trimChar_quoted _ hquote]
  rfl


theorem baseShaped_name (s : Sample) (h : baseShaped s) :
    ∃ c, s.Metric.lookup "container" = some c ∧ c ≠ "" ∧
      SplitKeysWithContainerName (sampleString s) = some c := by
  obtain ⟨c, p, hm, hc, hne⟩ := h
  refine ⟨c, ?_, hne, ?_⟩
  · rw [hm]
    simp [List.lookup]
  · have := SplitKeysWithContainerName_container_pod c p s.Value s.Timestamp hc
    rw [← hm] at this
    exact this

theorem baseShaped_valid (s : Sample) (h : baseShaped s) : validSample s := by
  obtain ⟨c, p, hm, _, _⟩ := h
  intro l hl
  rw [hm] at hl
  rcases List.mem_cons.mp hl with e | e
  · subst e
    have h1 : ',' ∉ "container".toList := by decide
    have h2 : ¬ ("container" = "__name__") := by decide
    exact ⟨h1, fun e => absurd e h2⟩
  · rw [List.mem_singleton] at e
    subst e
    have h1 : ',' ∉ "pod".toList := by decide
    have h2 : ¬ ("pod" = "__name__") := by decide
    exact ⟨h1, fun e => absurd e h2⟩

theorem mem_valuesNamed (store : MetricsStore) (r : List Sample) (name : String) (v : ℚ) :
    v ∈ valuesNamed store r name ↔
      ∃ s ∈ r, SplitKeysWithContainerName (sampleString s) = some name ∧
        store.ParseFloat s.Value = some v := by
  unfold valuesNamed
  rw [List.mem_filterMap]
  constructor
  · rintro ⟨s, hs, h⟩
    split_ifs at h with hn
    exact ⟨s, hs, hn, h⟩
  · rintro ⟨s, hs, hn, h⟩
    exact ⟨s, hs, by rw [if_pos hn]; exact h⟩

/-- On a vector of samples with the label set of the base queries whose values all parse, the
reduction gives a map with one key per container name of the `container` label and the
maximum of that container's values under it. -/
theorem queryAllocations_baseShaped (store : MetricsStore) (q typeError : String)
    (r : List Sample) (hq : store.Query q = .ok (.vector r))
    (hs : ∀ s ∈ r, baseShaped s) (hp : ∀ s ∈ r, store.ParseFloat s.Value ≠ none) :
    ∃ m, queryAllocations store q typeError = .done m ∧ (m.map Prod.fst).Nodup ∧
      ∀ name v, (name, v) ∈ m ↔
        ((∃ s ∈ r, s.Metric.lookup "container" = some name ∧
            store.ParseFloat s.Value = some v) ∧
          ∀ s ∈ r, s.Metric.lookup "container" = some name →
            ∀ w, store.ParseFloat s.Value = some w → w ≤ v) := by
  obtain ⟨m, hm, hnd, hmem⟩ := queryAllocations_groups store q typeError r hq
    (fun s h => baseShaped_valid s (hs s h)) hp
  refine ⟨m, hm, hnd, ?_⟩
  have hname : ∀ s ∈ r, ∀ name, SplitKeysWithContainerName (sampleString s) = some name ↔
      s.Metric.lookup "container" = some name := by
    intro s h name
    obtain ⟨c, hl, _, hk⟩ := baseShaped_name s (hs s h)
    rw [hl, hk]
  intro name v
  rw [hmem]
  constructor
  · rintro ⟨_, hin, hmax⟩
    obtain ⟨s, hsr, hn, hv⟩ := (mem_valuesNamed store r name v).mp hin
    refine ⟨⟨s, hsr, (hname s hsr name).mp hn, hv⟩, ?_⟩
    intro s2 hs2 hl w hw
    exact hmax w ((mem_valuesNamed store r name w).mpr ⟨s2, hs2, (hname s2 hs2 name).mpr hl, hw⟩)
  · rintro ⟨⟨s, hsr, hl, hv⟩, hmax⟩
    refine ⟨?_, (mem_valuesNamed store r name v).mpr ⟨s, hsr, (hname s hsr name).mpr hl, hv⟩, ?_⟩
    · obtain ⟨c, hl2, hne, _⟩ := baseShaped_name s (hs s hsr)
      rw [hl] at hl2
      rw [Option.some.inj hl2]
      exact hne
    · intro w hw
      obtain ⟨s2, hs2, hn2, hv2⟩ := (mem_valuesNamed store r name w).mp hw
      exact hmax s2 hs2 ((hname s2 hs2 name).mp hn2) w hv2

/-! ## The resource keys of a rewritten container -/

theorem rewriteContainer_keys {Q : Type} (lib : QuantityLib Q) (rv : ResourceAllocables)
    (c : Container Q) :
    (rewriteContainer lib rv c).Resources.Requests.map Prod.fst = ["cpu", "memory"] ∧
    (rewriteContainer lib rv c).Resources.Limits.map Prod.fst = ["cpu", "memory"] := by
  constructor <;> rfl

theorem lookup_other {Q : Type} (name : String) (a b : Q) (h1 : name ≠ "cpu")
    (h2 : name ≠ "memory") : List.lookup name [("cpu", a), ("memory", b)] = none := by
  have e1 : (name == "cpu") = false := by simpa using h1
  have e2 : (name == "memory") = false := by simpa using h2
  simp [List.lookup, e1, e2]

theorem Handle_patched_containers {Q : Type} (lib : QuantityLib Q) (store : MetricsStore)
    (a : podWebhook) (pod patched : Pod Q)
    (h : Handle lib store a (.ok pod) = some (.Patched patched)) :
    ∃ rv, patched.Containers = pod.Containers.map (rewriteContainer lib rv) := by
  unfold Handle at h
  simp only at h
  cases hg : annotationGate a pod with
  | respond r =>
    rw [hg] at h
    simp only [Option.some.injEq] at h
    subst h
    unfold annotationGate at hg
    split at hg
    · split at hg
      · simp at hg
      · split at hg
        · simp at hg
        · split at hg <;> simp at hg
    · simp at hg
  | proceed =>
    rw [hg] at h
    simp only at h
    unfold resizePod at h
    cases hc : resolveController pod.OwnerReferences with
    | none => simp [hc] at h
    | some name =>
      cases hp : Propagate store name with
      | none => simp [hc, hp] at h
      | some rv =>
        simp only [hc, hp, Option.some.injEq, Response.Patched.injEq] at h
        subst h
        exact ⟨rv, rfl⟩


/-- C11: after the container loop of `Handle`, whatever the metrics record is, the rewritten
`Requests` and `Limits` of a container hold exactly the two resource keys `cpu` and `memory`,
and no entry under any other resource name (such as `ephemeral-storage` or an extended
resource), whatever the container declared before; this holds for every container of the
pod a patch response of `Handle` carries, which has as many containers as the pod had. -/
theorem Handle_loop_resource_keys {Q : Type} (lib : QuantityLib Q) :
    (∀ (rv : ResourceAllocables) (c : Container Q),
      (rewriteContainer lib rv c).Resources.Requests.map Prod.fst = ["cpu", "memory"] ∧
      (rewriteContainer lib rv c).Resources.Limits.map Prod.fst = ["cpu", "memory"] ∧
      ∀ name, name ≠ "cpu" → name ≠ "memory" →
        (rewriteContainer lib rv c).Resources.Requests.lookup name = none ∧
        (rewriteContainer lib rv c).Resources.Limits.lookup name = none) ∧
    (∀ (store : MetricsStore) (a : podWebhook) (pod patched : Pod Q),
      Handle lib store a (.ok pod) = some (.Patched patched) →
      patched.Containers.length = pod.Containers.length ∧
      ∀ c ∈ patched.Containers,
        c.Resources.Requests.map Prod.fst = ["cpu", "memory"] ∧
        c.Resources.Limits.map Prod.fst = ["cpu", "memory"] ∧
        ∀ name, name ≠ "cpu" → name ≠ "memory" →
          c.Resources.Requests.lookup name = none ∧ c.Resources.Limits.lookup name = none) := by
  have body : ∀ (rv : ResourceAllocables) (c : Container Q),
      (rewriteContainer lib rv c).Resources.Requests.map Prod.fst = ["cpu", "memory"] ∧
      (rewriteContainer lib rv c).Resources.Limits.map Prod.fst = ["cpu", "memory"] ∧
      ∀ name, name ≠ "cpu" → name ≠ "memory" →
        (rewriteContainer lib rv c).Resources.Requests.lookup name = none ∧
        (rewriteContainer lib rv c).Resources.Limits.lookup name = none := by
    intro rv c
    refine ⟨(rewriteContainer_keys lib rv c).1, (rewriteContainer_keys lib rv c).2, ?_⟩
    intro name h1 h2
    exact ⟨lookup_other name _ _ h1 h2, lookup_other name _ _ h1 h2⟩
  refine ⟨body, ?_⟩
  intro store a pod patched h
  obtain ⟨rv, hrv⟩ := Handle_patched_containers lib store a pod patched h
  rw [hrv]
  refine ⟨List.length_map _ _, ?_⟩
  intro c hc
  obtain ⟨c0, _, rfl⟩ := List.mem_map.mp hc
  exact body rv c0

/-- C11 (witness): a pod whose container declares a CPU request, an `ephemeral-storage`
request and an extended resource limit, admitted with the annotation gate disabled and a
store without samples: the patched container holds `cpu` and `memory` only. -/
theorem Handle_loop_resource_keys_witness :
    List.lookup "ephemeral-storage"
        [("cpu", "250m"), ("ephemeral-storage", "1Gi")] = some "1Gi" ∧
    ∀ c ∈ [({ Name := "web",
              Resources := { Requests := [("cpu", "250m"), ("memory", "0")],
                             Limits := [("cpu", "0"), ("memory", "0")] } } : Container String)],
      c.Resources.Requests.map Prod.fst = ["cpu", "memory"] ∧
      c.Resources.Limits.map Prod.fst = ["cpu", "memory"] ∧
      ∀ name, name ≠ "cpu" → name ≠ "memory" →
        c.Resources.Requests.lookup name = none ∧ c.Resources.Limits.lookup name = none :=
  And.intro (by decide)
    ((Handle_loop_resource_keys textQuantities).2 (vectorStore []) { Annotation := false }
      { Name := "web-6f7d9c9fb6-x2kvp", Namespace := "default", Annotations := [],
        OwnerReferences := [⟨"ReplicaSet", "web-6f7d9c9fb6"⟩],
        Containers :=
          [{ Name := "web",
             Resources := { Requests := [("cpu", "250m"), ("ephemeral-storage", "1Gi")],
                            Limits := [("example.com/gpu", "1")] } }] }
      { Name := "web-6f7d9c9fb6-x2kvp", Namespace := "default", Annotations := [],
        OwnerReferences := [⟨"ReplicaSet", "web-6f7d9c9fb6"⟩],
        Containers :=
          [{ Name := "web",
             Resources := { Requests := [("cpu", "250m"), ("memory", "0")],
                            Limits := [("cpu", "0"), ("memory", "0")] } }] }
      (by decide)).2

/-! ## `Propagate` does not always return -/

/-- C7 (failing input): when the store answers with the vector that holds the one sample
`container,x{pod="p"} => 7` (metric name `container,x`, label `pod="p"`), the first
comma-separated piece of the printed sample is `container`, which mentions `container` and
holds no `=`, so the index `[1]` in `SplitKeysWithContainerName` panics inside
`AssignCPUAllocations` and `Propagate` returns no record. On the store whose base CPU query
fails and whose other queries answer, `Propagate` returns the record with both CPU maps
`nil` and both memory maps `{web: 150}`. -/
theorem Propagate_panics :
    sampleString ⟨[("__name__", "container,x"), ("pod", "p")], "7", "1"⟩
      = "container,x\x7bpod=\"p\"\x7d => 7 @[1]" ∧
    SplitKeysWithContainerName
        (sampleString ⟨[("__name__", "container,x"), ("pod", "p")], "7", "1"⟩) = none ∧
    AssignCPUAllocations
        (vectorStore [⟨[("__name__", "container,x"), ("pod", "p")], "7", "1"⟩])
        (QueryBuilder { Name := "web" }) = none ∧
    Propagate (vectorStore [⟨[("__name__", "container,x"), ("pod", "p")], "7", "1"⟩]) "web"
      = none ∧
    (Propagate cpuDownStore "web").map (fun r => (r.AvgCpu, r.PeakCPU)) = some (none, none) ∧
    (Propagate cpuDownStore "web").map (fun r => (r.AvgMem, r.PeakMem))
      = some (some [("web", 150)], some [("web", 150)]) := by
  refine ⟨by decide, by decide, by decide, by decide, by decide, by decide⟩

end PodResizer
